import Mathlib

/-!
# cs2-crosshair: the HTTP front of the crosshair image service

A shallow embedding of `src/config.js` and `src/crosshair-server.js`.

JavaScript strings are modelled as `List Char`.  Every regular expression of
the two files only names ASCII characters, so matching on code points and
matching on UTF-16 code units agree.
-/

namespace Crosshair

/-! ## Regular expressions -/

/-- The fragment of JavaScript regular expressions used by the regex literals
of the server: a literal character, a character class, concatenation,
alternation, bounded repetition `a{n}` and the end-of-input assertion `$`. -/
inductive Regex where
  | chr (c : Char)
  | cls (cs : List Char)
  | seq (a b : Regex)
  | alt (a b : Regex)
  | rep (n : Nat) (a : Regex)
  | eol

/-- Canonicalisation of a character under the `i` flag (ASCII upper-casing;
all pattern characters are ASCII). -/
def canon (ci : Bool) (c : Char) : Char := if ci then c.toUpper else c

/-- Run a matcher `n` times in a row, collecting every possible remainder. -/
def repeatM (f : List Char → List (List Char)) : Nat → List Char → List (List Char)
  | 0, s => [s]
  | n + 1, s => (f s).flatMap (repeatM f n)

/-- Backtracking matcher: all remainders of the input after a match of the
expression at the start of the input, in backtracking priority order. -/
def matchAt (ci : Bool) : Regex → List Char → List (List Char)
  | .chr c, x :: xs => if canon ci x = canon ci c then [xs] else []
  | .chr _, [] => []
  | .cls cs, x :: xs => if (cs.map (canon ci)).contains (canon ci x) then [xs] else []
  | .cls _, [] => []
  | .seq a b, s => (matchAt ci a s).flatMap (matchAt ci b)
  | .alt a b, s => matchAt ci a s ++ matchAt ci b s
  | .rep n a, s => repeatM (matchAt ci a) n s
  | .eol, s => if s.isEmpty then [[]] else []

/-- A regex literal: a leading `^` (anchored), the `i` flag, and the body. -/
structure Pattern where
  anchored : Bool
  ignoreCase : Bool
  body : Regex

/-- The remainder after the preferred match of the pattern body at the start
of the input. -/
def Pattern.matchFrom (p : Pattern) (s : List Char) : Option (List Char) :=
  (matchAt p.ignoreCase p.body s).head?

/-- Leftmost match at or after the current position: the text skipped before
the match (accumulated in `pre`) and the remainder after it. -/
def searchFrom (p : Pattern) : List Char → List Char → Option (List Char × List Char)
  | pre, [] => (p.matchFrom []).map (fun r => (pre, r))
  | pre, x :: xs =>
    match p.matchFrom (x :: xs) with
    | some r => some (pre, r)
    | none => searchFrom p (pre ++ [x]) xs

/-- The leftmost match of `RegExp.prototype.exec` without the `g` flag. -/
def Pattern.exec (p : Pattern) (s : List Char) : Option (List Char × List Char) :=
  if p.anchored then (p.matchFrom s).map (fun r => ([], r)) else searchFrom p [] s

/-- JavaScript `RegExp.prototype.test`. -/
def Pattern.test (p : Pattern) (s : List Char) : Bool := (p.exec s).isSome

/-- JavaScript `String.prototype.replace` with a regex without the `g` flag. -/
def replaceFirst (p : Pattern) (repl s : List Char) : List Char :=
  match p.exec s with
  | some (pre, r) => pre ++ repl ++ r
  | none => s

/-- Scan of `String.prototype.replace` with a `g` regex: `skip` counts the
characters of the current match still to be dropped. -/
def replaceAllAux (p : Pattern) (repl : List Char) : Nat → List Char → List Char
  | _, [] => match p.matchFrom [] with
    | some _ => repl
    | none => []
  | skip + 1, _ :: xs => replaceAllAux p repl skip xs
  | 0, x :: xs =>
    match p.matchFrom (x :: xs) with
    | some r =>
      if (x :: xs).length - r.length = 0 then repl ++ x :: replaceAllAux p repl 0 xs
      else repl ++ replaceAllAux p repl ((x :: xs).length - r.length - 1) xs
    | none => x :: replaceAllAux p repl 0 xs

/-- JavaScript `String.prototype.replace` with an unanchored `g` regex. -/
def replaceAll (p : Pattern) (repl s : List Char) : List Char :=
  replaceAllAux p repl 0 s

/-- The regex matching the characters of a string literally, one after the
other, followed by `k`. -/
def litThen (s : List Char) (k : Regex) : Regex :=
  s.foldr (fun c r => Regex.seq (Regex.chr c) r) k

/-! ## `config.js` -/

/-- The character class of `config.patterns.xcodePattern`. -/
def xcodeAlphabet : List Char :=
  "ABCDEFGHJKLMNOPQRSTUVWXYZabcdefhijkmnopqrstuvwxyz23456789".toList

/-- `config.patterns.xcodePattern`:
`/^CSGO(-[ABCDEFGHJKLMNOPQRSTUVWXYZabcdefhijkmnopqrstuvwxyz23456789]{5}){5}$/`. -/
def xcodePattern : Pattern where
  anchored := true
  ignoreCase := false
  body := litThen "CSGO".toList
    (Regex.seq
      (Regex.rep 5 (Regex.seq (Regex.chr '-') (Regex.rep 5 (Regex.cls xcodeAlphabet))))
      Regex.eol)

/-- `config.cache.directory`. -/
def cacheDirectory : List Char := "./cache".toList

/-- `config.crosshair.canvasSize`. -/
def canvasSize : Nat := 64

/-- `config.host`. -/
def configHost : List Char := "cs2-crosshair-production.up.railway.app".toList

/-- `config.domain`. -/
def configDomain : List Char := "cs2-crosshair-production.up.railway.app".toList

/-! ## `crosshair-server.js`: string helpers -/

/-- JavaScript `String.prototype.split` with a one-character separator. -/
def splitChar (sep : Char) : List Char → List (List Char)
  | [] => [[]]
  | x :: xs =>
    if x = sep then [] :: splitChar sep xs
    else
      match splitChar sep xs with
      | [] => [[x]]
      | piece :: pieces => (x :: piece) :: pieces

/-- The regex matching the characters of a string literally. -/
def word (s : List Char) : Regex := litThen s (Regex.rep 0 Regex.eol)

/-- The regex literal `/\.png$/`. -/
def pngSuffixPattern : Pattern where
  anchored := false
  ignoreCase := false
  body := litThen ".png".toList Regex.eol

/-- The characters of the class `[\\:*?"<>|]`. -/
def unsafeChars : List Char :=
  [Char.ofNat 92, ':', '*', '?', Char.ofNat 34, '<', '>', '|']

/-- The regex literal `/[\\:*?"<>|]/g`. -/
def unsafeCharPattern : Pattern where
  anchored := false
  ignoreCase := false
  body := Regex.cls unsafeChars

/-- The regex literal `/\.(ico|png|jpg|jpeg|gif|svg|css|js|txt|xml)$/i` of the
static-extension route. -/
def staticExtPattern : Pattern where
  anchored := false
  ignoreCase := true
  body := Regex.seq (Regex.chr '.')
    (Regex.seq
      (Regex.alt (word "ico".toList) (Regex.alt (word "png".toList)
        (Regex.alt (word "jpg".toList) (Regex.alt (word "jpeg".toList)
          (Regex.alt (word "gif".toList) (Regex.alt (word "svg".toList)
            (Regex.alt (word "css".toList) (Regex.alt (word "js".toList)
              (Regex.alt (word "txt".toList) (word "xml".toList))))))))))
      Regex.eol)

/-- The value of `crosshairCode` when the handler reaches the pattern test:
`filename.replace(/\.png$/, '')`, then `.split('/')[0]`, then
`.replace(/[\\:*?"<>|]/g, '')`. -/
def crosshairCodeOf (filename : List Char) : List Char :=
  let code1 := replaceFirst pngSuffixPattern [] filename
  let code2 := (splitChar '/' code1).headD []
  replaceAll unsafeCharPattern [] code2

/-! ## Node `path` (POSIX flavour) -/

/-- Segment normalisation of Node's `normalizeString`: empty and `.` segments
are dropped, `..` removes the last kept segment (or is kept, for a relative
path with nothing left to remove). -/
def normalizeSegments (allowAboveRoot : Bool) :
    List (List Char) → List (List Char) → List (List Char)
  | acc, [] => acc
  | acc, seg :: rest =>
    if seg = [] ∨ seg = ['.'] then normalizeSegments allowAboveRoot acc rest
    else if seg = ['.', '.'] then
      match acc.getLast? with
      | some last =>
        if last = ['.', '.'] then
          normalizeSegments allowAboveRoot (if allowAboveRoot then acc ++ [seg] else acc) rest
        else normalizeSegments allowAboveRoot acc.dropLast rest
      | none =>
        normalizeSegments allowAboveRoot (if allowAboveRoot then acc ++ [seg] else acc) rest
    else normalizeSegments allowAboveRoot (acc ++ [seg]) rest

/-- Node `path.normalize`. -/
def pathNormalize (path : List Char) : List Char :=
  if path = [] then ['.']
  else
    let isAbsolute := path.head? = some '/'
    let trailing := path.getLast? = some '/'
    let body := ['/'].intercalate (normalizeSegments (!isAbsolute) [] (splitChar '/' path))
    if body = [] then
      if isAbsolute then ['/'] else if trailing then ['.', '/'] else ['.']
    else
      (if isAbsolute then ['/'] else []) ++ body ++ (if trailing then ['/'] else [])

/-- Node `path.join` with two arguments. -/
def pathJoin (a b : List Char) : List Char :=
  match [a, b].filter (fun x => !x.isEmpty) with
  | [] => ['.']
  | parts => pathNormalize (['/'].intercalate parts)

/-- Node `path.resolve` with one argument, `cwd` being `process.cwd()`. -/
def pathResolve (cwd path : List Char) : List Char :=
  let full := if path.head? = some '/' then path else cwd ++ '/' :: path
  '/' :: ['/'].intercalate (normalizeSegments false [] (splitChar '/' full))

/-- Node `path.dirname` on an absolute, normalised path. -/
def pathDirname (path : List Char) : List Char :=
  match ['/'].intercalate (splitChar '/' path).dropLast with
  | [] => ['/']
  | dir => dir

/-- The directories on the way from the root to an absolute, normalised path,
the path itself included: what `mkdir -p` makes sure of. -/
def ancestorDirs (path : List Char) : List (List Char) :=
  ((splitChar '/' path).drop 1).inits.map (fun segs => '/' :: ['/'].intercalate segs)

/-! ## The file system and the renderer, as seen by the image route -/

/-- The state of the file system: the working directory of the process, the
regular files (absolute path and content), the directories, and the paths at
which creating or writing an entry fails (permissions, a read-only mount, a
full disk). -/
structure FileSys where
  cwd : List Char
  files : List (List Char × List Nat)
  dirs : List (List Char)
  denied : List Char → Bool

/-- The content of the regular file at an absolute path. -/
def FileSys.readFile (fs : FileSys) (absPath : List Char) : Option (List Nat) :=
  fs.files.lookup absPath

/-- Node `fs.existsSync`. -/
def FileSys.existsSync (fs : FileSys) (path : List Char) : Bool :=
  (fs.readFile (pathResolve fs.cwd path)).isSome || fs.dirs.contains (pathResolve fs.cwd path)

/-- Node `fs.mkdirSync(path, { recursive: true })`; `none` stands for a thrown
exception: a regular file in the way, or a directory that cannot be
created. -/
def FileSys.mkdirSync (fs : FileSys) (path : List Char) : Option FileSys :=
  if fs.dirs.contains (pathResolve fs.cwd path) then some fs
  else if (ancestorDirs (pathResolve fs.cwd path)).any
      (fun d => (fs.readFile d).isSome || (!fs.dirs.contains d && fs.denied d)) then none
  else some { fs with dirs := ancestorDirs (pathResolve fs.cwd path) ++ fs.dirs }

/-- Node `fs.writeFileSync`; `none` stands for a thrown exception: the write
is denied, the path is a directory, or its parent is not a directory. -/
def FileSys.writeFileSync (fs : FileSys) (path : List Char) (data : List Nat) :
    Option FileSys :=
  if fs.denied (pathResolve fs.cwd path) || fs.dirs.contains (pathResolve fs.cwd path)
      || !fs.dirs.contains (pathDirname (pathResolve fs.cwd path)) then none
  else some { fs with files := (pathResolve fs.cwd path, data) :: fs.files }

/-- The constructor and the methods of `CS2CrosshairRenderer` (module
`./services/crosshairRenderer`) and of the canvas it returns, taken as
parameters; `false` and `none` stand for a thrown exception. -/
structure Renderer (σ κ : Type) where
  construct : Bool
  parseCode : List Char → Option σ
  renderCrosshair : σ → Nat → Option κ
  toBuffer : κ → Option (List Nat)

/-- What the image route does to its collaborators, in program order. -/
inductive Effect where
  | existsSync (path : List Char)
  | sendFile (path : List Char)
  | newRenderer
  | parseCode (code : List Char)
  | renderCrosshair
  | toBuffer
  | mkdirSync (path : List Char)
  | writeFileSync (path : List Char) (data : List Nat)
  deriving DecidableEq

/-- The body of an HTTP response. -/
inductive Body where
  | json (error : String)
  | bytes (data : List Nat)
  | empty
  deriving DecidableEq

/-- An HTTP response: status, the headers set by the handler, body. -/
structure Response where
  status : Nat
  headers : List (String × String)
  body : Body
  deriving DecidableEq

/-- How a handler leaves a request: it has sent a response, or Express has
called `next()` and the handlers registered later answer, the headers set so
far staying on the response. -/
inductive Outcome where
  | sent (response : Response)
  | next (headers : List (String × String))
  deriving DecidableEq

/-- The status of the response a handler has sent. -/
def Outcome.status : Outcome → Option Nat
  | Outcome.sent response => some response.status
  | Outcome.next _ => none

/-- The request headers that Express acts on when it sends a body or a file:
`Range`, `If-None-Match`, `If-Modified-Since`, `If-Match` and
`If-Unmodified-Since`. -/
structure SendHeaders where
  range : Option (List Char)
  ifNoneMatch : Option (List Char)
  ifModifiedSince : Option (List Char)
  ifMatch : Option (List Char)
  ifUnmodifiedSince : Option (List Char)

/-- A request without `Range` and without conditional headers. -/
def SendHeaders.isPlain (h : SendHeaders) : Bool :=
  h.range.isNone && h.ifNoneMatch.isNone && h.ifModifiedSince.isNone && h.ifMatch.isNone
    && h.ifUnmodifiedSince.isNone

/-- What the module `send` makes of a file for a request with `Range` or
conditional headers: the whole file, `304`, a part of the file (`206`), or an
error (`412`, `416`) handed to `next(err)`. -/
inductive FileOutcome where
  | full
  | notModified
  | partialContent (part : List Nat)
  | failed

/-- The parts of Express that evaluate `Range` and conditional request headers
(modules `fresh`, `send`, `range-parser`), taken as parameters. -/
structure SendLib where
  fresh : SendHeaders → List Nat → Bool
  serveFile : SendHeaders → List Nat → FileOutcome

/-- The headers set by the image route on both of its successful paths. -/
def pngHeaders : List (String × String) :=
  [("Content-Type", "image/png"), ("Cache-Control", "public, max-age=3600")]

/-- The response `res.status(400).json(...)` of the image route. -/
def invalidCodeResponse : Response :=
  ⟨400, [], Body.json "invalid crosshair code image cache format"⟩

/-- The response `res.status(500).json(...)` of the image route. -/
def renderFailedResponse : Response :=
  ⟨500, [], Body.json "failed to generate image"⟩

/-- The response of the error-handling middleware (the last `app.use`), reached
by `next(err)`; the headers already set stay. -/
def errorHandlerResponse (headers : List (String × String)) : Response :=
  ⟨500, headers, Body.json "something went wwong"⟩

/-- The headers left on a `304` response: the content headers are removed. -/
def withoutContentType (headers : List (String × String)) : List (String × String) :=
  headers.filter (fun kv => kv.1 != "Content-Type")

/-- Express `res.send(buffer)` on a `GET` request, after `res.set(headers)`:
status 200 with the buffer as body, unless the request is conditional and
fresh (`304`, no body). -/
def expressSend (X : SendLib) (h : SendHeaders) (headers : List (String × String))
    (buffer : List Nat) : Outcome :=
  if (h.ifNoneMatch.isSome || h.ifModifiedSince.isSome) && X.fresh h buffer then
    Outcome.sent ⟨304, withoutContentType headers, Body.empty⟩
  else Outcome.sent ⟨200, headers, Body.bytes buffer⟩

/-- Express `res.sendFile` on an absolute path, on a `GET` request, after
`res.set(headers)`: on a path that is no regular file Express calls `next()`;
a request without `Range` and conditional headers gets the whole file with
status 200; otherwise `send` decides, an error going to the error handler. -/
def expressSendFile (X : SendLib) (fs : FileSys) (h : SendHeaders)
    (headers : List (String × String)) (absPath : List Char) : Outcome :=
  match fs.readFile absPath with
  | none => Outcome.next headers
  | some data =>
    if h.isPlain then Outcome.sent ⟨200, headers, Body.bytes data⟩
    else
      match X.serveFile h data with
      | FileOutcome.full => Outcome.sent ⟨200, headers, Body.bytes data⟩
      | FileOutcome.notModified => Outcome.sent ⟨304, withoutContentType headers, Body.empty⟩
      | FileOutcome.partialContent part => Outcome.sent ⟨206, headers, Body.bytes part⟩
      | FileOutcome.failed => Outcome.sent (errorHandlerResponse headers)

/-- The name of the cache file of a crosshair code:
`path.join(config.cache.directory, code + ".png")`. -/
def cacheFileOf (crosshairCode : List Char) : List Char :=
  pathJoin cacheDirectory (crosshairCode ++ ".png".toList)

/-- The first four statements of the `try` block of the image route: the image
buffer, or `none` when one of them throws, and the calls made. -/
def renderImage {σ κ : Type} (R : Renderer σ κ) (crosshairCode : List Char) :
    Option (List Nat) × List Effect :=
  if !R.construct then (none, [Effect.newRenderer])
  else
    match R.parseCode crosshairCode with
    | none => (none, [Effect.newRenderer, Effect.parseCode crosshairCode])
    | some settings =>
      match R.renderCrosshair settings canvasSize with
      | none =>
        (none, [Effect.newRenderer, Effect.parseCode crosshairCode, Effect.renderCrosshair])
      | some canvas =>
        match R.toBuffer canvas with
        | none =>
          (none, [Effect.newRenderer, Effect.parseCode crosshairCode, Effect.renderCrosshair,
            Effect.toBuffer])
        | some imageBuffer =>
          (some imageBuffer, [Effect.newRenderer, Effect.parseCode crosshairCode,
            Effect.renderCrosshair, Effect.toBuffer])

/-- The cache write of the image route (the directory check, `mkdirSync` and
`writeFileSync`): whether it went through, the file system afterwards, and
the calls made. -/
def writeCache (fs : FileSys) (cacheFile : List Char) (imageBuffer : List Nat) :
    Bool × FileSys × List Effect :=
  if !fs.existsSync cacheDirectory then
    match fs.mkdirSync cacheDirectory with
    | none => (false, fs, [Effect.existsSync cacheDirectory, Effect.mkdirSync cacheDirectory])
    | some fs1 =>
      match fs1.writeFileSync cacheFile imageBuffer with
      | none =>
        (false, fs1, [Effect.existsSync cacheDirectory, Effect.mkdirSync cacheDirectory,
          Effect.writeFileSync cacheFile imageBuffer])
      | some fs2 =>
        (true, fs2, [Effect.existsSync cacheDirectory, Effect.mkdirSync cacheDirectory,
          Effect.writeFileSync cacheFile imageBuffer])
  else
    match fs.writeFileSync cacheFile imageBuffer with
    | none =>
      (false, fs, [Effect.existsSync cacheDirectory,
        Effect.writeFileSync cacheFile imageBuffer])
    | some fs2 =>
      (true, fs2, [Effect.existsSync cacheDirectory,
        Effect.writeFileSync cacheFile imageBuffer])

/-- The handler of `app.get('/image/:filename')` on a `GET` request: how the
request is left, the file system afterwards, and the calls made in program
order.  Every exception inside the `try` block ends in the `catch` branch. -/
def imageHandler {σ κ : Type} (X : SendLib) (R : Renderer σ κ) (fs : FileSys)
    (h : SendHeaders) (filename : List Char) : Outcome × FileSys × List Effect :=
  let crosshairCode := crosshairCodeOf filename
  if !xcodePattern.test crosshairCode then (Outcome.sent invalidCodeResponse, fs, [])
  else
    let cacheFile := cacheFileOf crosshairCode
    if fs.existsSync cacheFile then
      (expressSendFile X fs h pngHeaders (pathResolve fs.cwd cacheFile), fs,
        [Effect.existsSync cacheFile, Effect.sendFile (pathResolve fs.cwd cacheFile)])
    else
      match (renderImage R crosshairCode).1 with
      | none =>
        (Outcome.sent renderFailedResponse, fs,
          Effect.existsSync cacheFile :: (renderImage R crosshairCode).2)
      | some imageBuffer =>
        if (writeCache fs cacheFile imageBuffer).1 then
          (expressSend X h pngHeaders imageBuffer, (writeCache fs cacheFile imageBuffer).2.1,
            Effect.existsSync cacheFile :: (renderImage R crosshairCode).2 ++
              (writeCache fs cacheFile imageBuffer).2.2)
        else
          (Outcome.sent renderFailedResponse, (writeCache fs cacheFile imageBuffer).2.1,
            Effect.existsSync cacheFile :: (renderImage R crosshairCode).2 ++
              (writeCache fs cacheFile imageBuffer).2.2)

/-! ## Routing -/

/-- The routes of the application that can answer a `GET /image/...` request,
in registration order (the later routes are out of reach of such a path). -/
inductive Route where
  | staticExtension
  | image (filename : List Char)
  | later
  deriving DecidableEq

/-- Express path matching of `'/image/:filename'` (path-to-regexp with the
default options: `/^\/image\/(?:([^\/]+?))\/?$/i`); the captured segment. -/
def matchImageRoute (path : List Char) : Option (List Char) :=
  if (path.take 7).map Char.toLower = "/image/".toList then
    let rest := path.drop 7
    let seg := if rest.getLast? = some '/' then rest.dropLast else rest
    if seg ≠ [] ∧ '/' ∉ seg then some seg else none
  else none

/-- The first route, in registration order, whose path pattern matches. -/
def dispatch (path : List Char) : Route :=
  if staticExtPattern.test path then Route.staticExtension
  else
    match matchImageRoute path with
    | some seg => Route.image seg
    | none => Route.later

/-- The answer to a `GET` request that has passed the middleware: the
static-extension route answers `204` with no body; the image route runs its
handler on the decoded segment, a segment that `decodeURIComponent` refuses
going to the error handler; every other path is left to `later`. -/
def handleGet {σ κ : Type} (X : SendLib) (R : Renderer σ κ)
    (decode : List Char → Option (List Char))
    (later : FileSys → List Char → Outcome × FileSys × List Effect)
    (fs : FileSys) (h : SendHeaders) (path : List Char) : Outcome × FileSys × List Effect :=
  match dispatch path with
  | Route.staticExtension => (Outcome.sent ⟨204, [], Body.empty⟩, fs, [])
  | Route.image seg =>
    match decode seg with
    | none => (Outcome.sent (errorHandlerResponse []), fs, [])
    | some filename => imageHandler X R fs h filename
  | Route.later => later fs path

/-! ## Host validation -/

/-- The request as seen by the host middleware. -/
structure Request where
  xForwardedHost : Option (List Char)
  host : Option (List Char)
  path : List Char

/-- JavaScript `a || b` for a header value `a` that is a string or undefined:
`a` unless it is undefined or the empty string. -/
def jsOr (a : Option (List Char)) (b : List Char) : List Char :=
  match a with
  | some (x :: xs) => x :: xs
  | _ => b

/-- White space and line terminators stripped by `String.prototype.trim`. -/
def isJsWhiteSpace (c : Char) : Bool :=
  [9, 10, 11, 12, 13, 32, 160, 5760, 8232, 8233, 8239, 8287, 12288, 65279].contains c.toNat
    || (8192 ≤ c.toNat && c.toNat ≤ 8202)

/-- JavaScript `String.prototype.trim`. -/
def jsTrim (s : List Char) : List Char :=
  ((s.dropWhile isJsWhiteSpace).reverse.dropWhile isJsWhiteSpace).reverse

/-- JavaScript `toLowerCase` on one character of a header value (header
values reach Node as Latin-1 strings). -/
def jsLowerChar (c : Char) : Char :=
  if (65 ≤ c.toNat ∧ c.toNat ≤ 90) ∨ (192 ≤ c.toNat ∧ c.toNat ≤ 222 ∧ c.toNat ≠ 215) then
    Char.ofNat (c.toNat + 32)
  else c

/-- JavaScript `String.prototype.toLowerCase`. -/
def jsToLowerCase (s : List Char) : List Char := s.map jsLowerChar

/-- The tail of `getReqHost`: `h.split(',')[0].trim().toLowerCase()`. -/
def normalizeHostValue (h : List Char) : List Char :=
  jsToLowerCase (jsTrim ((splitChar ',' h).headD []))

/-- The function `getReqHost`. -/
def getReqHost (req : Request) : List Char :=
  normalizeHostValue (jsOr req.xForwardedHost (jsOr req.host []))

/-- The function `allowedHosts` (the members of the set it builds). -/
def allowedHosts : List (List Char) :=
  let d := jsToLowerCase (jsOr (some configDomain) [])
  let h := jsToLowerCase (jsOr (some configHost) [])
  [d, h, d ++ ":80".toList, d ++ ":443".toList, h ++ ":80".toList, h ++ ":443".toList]

/-- The response `res.status(403).json(...)` of the host middleware. -/
def accessDeniedResponse : Response :=
  ⟨403, [], Body.json "access denied"⟩

/-- The host middleware: `none` is `next()`, `some r` ends the request. -/
def hostMiddleware (req : Request) : Option Response :=
  let host := getReqHost req
  if host.isEmpty then none
  else if ".up.railway.app".toList.isSuffixOf host then none
  else if allowedHosts.contains host then none
  else some accessDeniedResponse

/-- The application: the host middleware first, then everything registered
after it (`later`: the other middleware and the routes). -/
def runApp (later : Request → FileSys → Response × FileSys × List Effect)
    (fs : FileSys) (req : Request) : Response × FileSys × List Effect :=
  match hostMiddleware req with
  | some resp => (resp, fs, [])
  | none => later req fs

/-! ## Sample collaborators, for concrete runs -/

/-- A renderer that accepts every code and draws a four-byte image. -/
def sampleRenderer : Renderer (List Char) Nat where
  construct := true
  parseCode := fun code => some code
  renderCrosshair := fun _ size => some size
  toBuffer := fun _ => some [137, 80, 78, 71]

/-- A renderer whose `parseCode` throws on every code. -/
def failingRenderer : Renderer (List Char) Nat where
  construct := true
  parseCode := fun _ => none
  renderCrosshair := fun _ size => some size
  toBuffer := fun _ => some [137, 80, 78, 71]

/-- A file system without any regular file, the process running in `/app`,
nothing denied. -/
def emptyFileSys : FileSys where
  cwd := "/app".toList
  files := []
  dirs := ["/".toList, "/app".toList]
  denied := fun _ => false

/-- A file system in which `/app/cache` is a regular file. -/
def blockedCacheFileSys : FileSys where
  cwd := "/app".toList
  files := [("/app/cache".toList, [])]
  dirs := ["/".toList, "/app".toList]
  denied := fun _ => false

/-- A request without `Range` and conditional headers. -/
def plainHeaders : SendHeaders where
  range := none
  ifNoneMatch := none
  ifModifiedSince := none
  ifMatch := none
  ifUnmodifiedSince := none

/-- A request for the first byte only: `Range: bytes=0-0`. -/
def firstByteHeaders : SendHeaders where
  range := some "bytes=0-0".toList
  ifNoneMatch := none
  ifModifiedSince := none
  ifMatch := none
  ifUnmodifiedSince := none

/-- Express on the two sample requests: nothing is fresh, and a `Range` header
(here always `bytes=0-0`) is served with the first byte of the file. -/
def sampleSendLib : SendLib where
  fresh := fun _ _ => false
  serveFile := fun h data =>
    match h.range with
    | some _ => FileOutcome.partialContent (data.take 1)
    | none => FileOutcome.full

/-- The example share code of `getUsageResponse`. -/
def exampleCode : List Char := "CSGO-AJswe-2jNcK-nMpEQ-rHV5J-5JWAB".toList

/-- A request with an empty `X-Forwarded-Host` header and a foreign `Host`. -/
def emptyForwardedHostRequest : Request where
  xForwardedHost := some []
  host := some "evil.example".toList
  path := "/".toList

/-- A request for the configured domain on port 443. -/
def ownDomainRequest : Request where
  xForwardedHost := none
  host := some "CS2-Crosshair-Production.up.railway.app:443".toList
  path := "/".toList

/-- A request whose only host header names a foreign host. -/
def foreignHostRequest : Request where
  xForwardedHost := none
  host := some "evil.example".toList
  path := "/".toList

/-! ## Notions of the claims -/

/-- The 25 block characters of a share code: what follows the four-character
`CSGO`, hyphens aside. -/
def blockChars (s : List Char) : List Char := (s.drop 4).filter (fun c => c != '-')

/-- The digit values of a share code: each block character mapped to its
position in the alphabet. -/
def codeDigits (s : List Char) : List Nat := (blockChars s).map (fun c => xcodeAlphabet.indexOf c)

/-- Removal of one trailing `.png`, in plain list terms. -/
def stripPngSuffix (s : List Char) : List Char :=
  if ".png".toList <:+ s then s.take (s.length - 4) else s

/-- The computation of `crosshairCode` in plain list terms: one trailing
`.png` removed, the text cut at the first `/`, the characters
`\ : * ? " < > |` deleted. -/
def plainCrosshairCode (filename : List Char) : List Char :=
  ((stripPngSuffix filename).takeWhile (fun c => c != '/')).filter
    (fun c => !unsafeChars.contains c)

/-- The host as the claim words it: the `X-Forwarded-Host` header if present,
otherwise the `Host` header, cut at the first comma, trimmed, lower-cased. -/
def hostIfPresent (req : Request) : List Char :=
  match req.xForwardedHost with
  | some v => normalizeHostValue v
  | none => normalizeHostValue (req.host.getD [])

/-- The path named by a file-system effect. -/
def Effect.fsPath : Effect → Option (List Char)
  | Effect.existsSync p => some p
  | Effect.sendFile p => some p
  | Effect.mkdirSync p => some p
  | Effect.writeFileSync p _ => some p
  | _ => none

/-- Whether an effect is a call into the renderer. -/
def Effect.isRenderer : Effect → Bool
  | Effect.newRenderer => true
  | Effect.parseCode _ => true
  | Effect.renderCrosshair => true
  | Effect.toBuffer => true
  | _ => false

/-! ## The shape of a share code, in the words of the specification -/

/-- The literal `CSGO` followed by exactly five groups, each one hyphen
followed by exactly five characters of the fixed alphabet, and nothing else. -/
def IsShareCodeShape (s : List Char) : Prop :=
  ∃ gs : List (List Char), gs.length = 5 ∧
    (∀ g ∈ gs, g.length = 5 ∧ ∀ c ∈ g, c ∈ xcodeAlphabet) ∧
    s = "CSGO".toList ++ (gs.map (fun g => '-' :: g)).flatten

/-- A matcher recognises the words satisfying `P`: its remainders are exactly
the inputs with a `P`-word removed from the front. -/
def Recognises (f : List Char → List (List Char)) (P : List Char → Prop) : Prop :=
  ∀ s r, r ∈ f s ↔ ∃ w, P w ∧ s = w ++ r

/-! ## Matcher lemmas -/

theorem Recognises.congr {f : List Char → List (List Char)} {P Q : List Char → Prop}
    (h : Recognises f P) (hPQ : ∀ w, P w ↔ Q w) : Recognises f Q := by
  intro s r
  rw [h s r]
  constructor
  · rintro ⟨w, hw, rfl⟩
    exact ⟨w, (hPQ w).1 hw, rfl⟩
  · rintro ⟨w, hw, rfl⟩
    exact ⟨w, (hPQ w).2 hw, rfl⟩

theorem canon_false (c : Char) : canon false c = c := by
  simp [canon]

theorem map_canon_false (cs : List Char) : cs.map (canon false) = cs := by
  induction cs with
  | nil => rfl
  | cons c cs ih => simp [canon_false, ih]

theorem recognises_chr (c : Char) :
    Recognises (matchAt false (Regex.chr c)) (fun w => w = [c]) := by
  intro s r
  cases s with
  | nil => simp [matchAt]
  | cons x xs =>
    simp only [matchAt, canon_false]
    by_cases hx : x = c
    · subst hx
      simp only [if_true, List.mem_singleton]
      constructor
      · rintro rfl
        exact ⟨[x], rfl, rfl⟩
      · rintro ⟨w, rfl, h⟩
        simp only [List.singleton_append, List.cons.injEq] at h
        exact h.2.symm
    · simp only [hx, if_false, List.not_mem_nil, false_iff]
      rintro ⟨w, rfl, h⟩
      simp only [List.singleton_append, List.cons.injEq] at h
      exact hx h.1

theorem recognises_cls (cs : List Char) :
    Recognises (matchAt false (Regex.cls cs)) (fun w => ∃ c ∈ cs, w = [c]) := by
  intro s r
  cases s with
  | nil =>
    simp only [matchAt, List.not_mem_nil, false_iff]
    rintro ⟨w, ⟨c, -, rfl⟩, h⟩
    simp at h
  | cons x xs =>
    simp only [matchAt, canon_false, map_canon_false, List.elem_eq_mem, decide_eq_true_eq]
    by_cases hx : x ∈ cs
    · simp only [hx, if_true, List.mem_singleton]
      constructor
      · rintro rfl
        exact ⟨[x], ⟨x, hx, rfl⟩, rfl⟩
      · rintro ⟨w, ⟨c, -, rfl⟩, h⟩
        simp only [List.singleton_append, List.cons.injEq] at h
        exact h.2.symm
    · simp only [hx, if_false, List.not_mem_nil, false_iff]
      rintro ⟨w, ⟨c, hc, rfl⟩, h⟩
      simp only [List.singleton_append, List.cons.injEq] at h
      exact hx (h.1 ▸ hc)

theorem recognises_seq {ci : Bool} {a b : Regex} {P Q : List Char → Prop}
    (ha : Recognises (matchAt ci a) P) (hb : Recognises (matchAt ci b) Q) :
    Recognises (matchAt ci (Regex.seq a b)) (fun w => ∃ u v, P u ∧ Q v ∧ w = u ++ v) := by
  intro s r
  simp only [matchAt, List.mem_flatMap]
  constructor
  · rintro ⟨m, hm, hr⟩
    obtain ⟨u, hu, rfl⟩ := (ha s m).1 hm
    obtain ⟨v, hv, rfl⟩ := (hb m r).1 hr
    exact ⟨u ++ v, ⟨u, v, hu, hv, rfl⟩, by simp⟩
  · rintro ⟨w, ⟨u, v, hu, hv, rfl⟩, rfl⟩
    exact ⟨v ++ r, (ha _ _).2 ⟨u, hu, by simp⟩, (hb _ _).2 ⟨v, hv, rfl⟩⟩

theorem recognises_repeatM {f : List Char → List (List Char)} {P : List Char → Prop}
    (hf : Recognises f P) (n : Nat) :
    Recognises (repeatM f n)
      (fun w => ∃ ws : List (List Char), ws.length = n ∧ (∀ u ∈ ws, P u) ∧ w = ws.flatten) := by
  induction n with
  | zero =>
    intro s r
    simp only [repeatM, List.mem_singleton, List.length_eq_zero]
    constructor
    · rintro rfl
      exact ⟨[], ⟨[], rfl, by simp, rfl⟩, rfl⟩
    · rintro ⟨w, ⟨ws, rfl, -, rfl⟩, rfl⟩
      simp
  | succ n ih =>
    intro s r
    simp only [repeatM, List.mem_flatMap]
    constructor
    · rintro ⟨m, hm, hr⟩
      obtain ⟨u, hu, rfl⟩ := (hf s m).1 hm
      obtain ⟨v, ⟨ws, hlen, hall, rfl⟩, rfl⟩ := (ih m r).1 hr
      refine ⟨u ++ ws.flatten, ⟨u :: ws, by simp [hlen], ?_, by simp⟩, by simp⟩
      intro x hx
      rcases List.mem_cons.1 hx with rfl | hx
      · exact hu
      · exact hall x hx
    · rintro ⟨w, ⟨ws, hlen, hall, rfl⟩, rfl⟩
      cases ws with
      | nil => simp at hlen
      | cons u ws =>
        refine ⟨ws.flatten ++ r, (hf _ _).2 ⟨u, hall u (by simp), by simp⟩, ?_⟩
        exact (ih _ _).2 ⟨ws.flatten, ⟨ws, by simpa using hlen,
          fun x hx => hall x (List.mem_cons_of_mem _ hx), rfl⟩, rfl⟩

theorem recognises_rep {ci : Bool} {a : Regex} {P : List Char → Prop}
    (ha : Recognises (matchAt ci a) P) (n : Nat) :
    Recognises (matchAt ci (Regex.rep n a))
      (fun w => ∃ ws : List (List Char), ws.length = n ∧ (∀ u ∈ ws, P u) ∧ w = ws.flatten) := by
  intro s r
  simpa only [matchAt] using recognises_repeatM ha n s r

theorem mem_matchAt_litThen (l : List Char) (k : Regex) (s r : List Char) :
    r ∈ matchAt false (litThen l k) s ↔ ∃ t, s = l ++ t ∧ r ∈ matchAt false k t := by
  induction l generalizing s with
  | nil => simp [litThen]
  | cons c l ih =>
    have hstep : litThen (c :: l) k = Regex.seq (Regex.chr c) (litThen l k) := rfl
    rw [hstep]
    simp only [matchAt, List.mem_flatMap]
    constructor
    · rintro ⟨m, hm, hr⟩
      obtain ⟨w, rfl, rfl⟩ := (recognises_chr c s m).1 hm
      obtain ⟨t, rfl, ht⟩ := (ih m).1 hr
      exact ⟨t, by simp, ht⟩
    · rintro ⟨t, rfl, ht⟩
      exact ⟨l ++ t, (recognises_chr c _ _).2 ⟨[c], rfl, by simp⟩, (ih _).2 ⟨t, rfl, ht⟩⟩

theorem mem_matchAt_seq_eol (ci : Bool) (a : Regex) (s r : List Char) :
    r ∈ matchAt ci (Regex.seq a Regex.eol) s ↔ r = [] ∧ [] ∈ matchAt ci a s := by
  simp only [matchAt, List.mem_flatMap]
  constructor
  · rintro ⟨m, hm, hr⟩
    cases m with
    | nil =>
      simp only [List.isEmpty_nil, if_true, List.mem_singleton] at hr
      exact ⟨hr, hm⟩
    | cons x xs => simp at hr
  · rintro ⟨rfl, h⟩
    exact ⟨[], h, by simp⟩

theorem Pattern.test_anchored (p : Pattern) (hp : p.anchored = true) (s : List Char) :
    p.test s = true ↔ ∃ r, r ∈ matchAt p.ignoreCase p.body s := by
  unfold Pattern.test Pattern.exec Pattern.matchFrom
  rw [if_pos hp]
  cases h : matchAt p.ignoreCase p.body s with
  | nil => simp
  | cons r rs => simp

/-- The words matched by one group `-[alphabet]{5}` of the share-code pattern. -/
theorem recognises_group :
    Recognises
      (matchAt false (Regex.seq (Regex.chr '-') (Regex.rep 5 (Regex.cls xcodeAlphabet))))
      (fun w => ∃ g : List Char, (g.length = 5 ∧ ∀ c ∈ g, c ∈ xcodeAlphabet) ∧ w = '-' :: g) := by
  refine (recognises_seq (recognises_chr '-')
    (recognises_rep (recognises_cls xcodeAlphabet) 5)).congr ?_
  intro w
  constructor
  · rintro ⟨u, v, rfl, ⟨ws, hlen, hall, rfl⟩, rfl⟩
    refine ⟨ws.flatten, ⟨?_, ?_⟩, rfl⟩
    · rw [List.length_flatten, ← hlen]
      have hone : ws.map List.length = ws.map (fun _ => 1) := by
        apply List.map_congr_left
        intro x hx
        obtain ⟨c, -, rfl⟩ := hall x hx
        rfl
      rw [hone]
      simp
    · intro c hc
      obtain ⟨x, hx, hcx⟩ := List.mem_flatten.1 hc
      obtain ⟨d, hd, rfl⟩ := hall x hx
      rw [List.mem_singleton] at hcx
      exact hcx ▸ hd
  · rintro ⟨g, ⟨hlen, hall⟩, rfl⟩
    refine ⟨['-'], g, rfl, ⟨g.map (fun c => [c]), by simpa using hlen, ?_, ?_⟩, rfl⟩
    · intro u hu
      obtain ⟨c, hc, rfl⟩ := List.mem_map.1 hu
      exact ⟨c, hall c hc, rfl⟩
    · clear hlen hall
      induction g with
      | nil => rfl
      | cons c g ih => simp [← ih]

theorem xcodePattern_test_iff (s : List Char) :
    xcodePattern.test s = true ↔ IsShareCodeShape s := by
  rw [Pattern.test_anchored xcodePattern rfl]
  have hbody : xcodePattern.body = litThen "CSGO".toList
      (Regex.seq
        (Regex.rep 5 (Regex.seq (Regex.chr '-') (Regex.rep 5 (Regex.cls xcodeAlphabet))))
        Regex.eol) := rfl
  have hci : xcodePattern.ignoreCase = false := rfl
  rw [hbody, hci]
  simp only [mem_matchAt_litThen, mem_matchAt_seq_eol]
  have hrep := recognises_rep recognises_group 5
  constructor
  · rintro ⟨r, t, rfl, -, ht⟩
    obtain ⟨w, ⟨ws, hlen, hall, rfl⟩, rfl⟩ := (hrep t []).1 ht
    refine ⟨ws.map List.tail, by simpa using hlen, ?_, ?_⟩
    · intro g hg
      obtain ⟨u, hu, rfl⟩ := List.mem_map.1 hg
      obtain ⟨g0, hg0, rfl⟩ := hall u hu
      exact hg0
    · have hmap : (ws.map List.tail).map (fun g => '-' :: g) = ws := by
        rw [List.map_map]
        conv_rhs => rw [← List.map_id ws]
        apply List.map_congr_left
        intro u hu
        obtain ⟨g, -, rfl⟩ := hall u hu
        rfl
      rw [hmap]
      simp
  · rintro ⟨gs, hlen, hall, rfl⟩
    refine ⟨[], (gs.map (fun g => '-' :: g)).flatten, rfl, rfl, ?_⟩
    refine (hrep _ []).2 ⟨_, ⟨gs.map (fun g => '-' :: g), by simpa using hlen, ?_, rfl⟩, by simp⟩
    intro u hu
    obtain ⟨g, hg, rfl⟩ := List.mem_map.1 hu
    exact ⟨g, hall g hg, rfl⟩

theorem IsShareCodeShape.length_eq {s : List Char} (h : IsShareCodeShape s) : s.length = 34 := by
  obtain ⟨gs, hlen, hall, rfl⟩ := h
  have hsum : ((gs.map (fun g => '-' :: g)).map List.length) = gs.map (fun _ => 6) := by
    rw [List.map_map]
    apply List.map_congr_left
    intro g hg
    simp [(hall g hg).1]
  rw [List.length_append, List.length_flatten, hsum]
  simp [hlen]

/-! ## Block characters of an accepted code -/

theorem csgo_toList : "CSGO".toList = ['C', 'S', 'G', 'O'] := rfl

theorem hyphen_not_mem_alphabet : '-' ∉ xcodeAlphabet := by decide

theorem filter_hyphen_groups (gs : List (List Char))
    (h : ∀ g ∈ gs, ∀ c ∈ g, c ∈ xcodeAlphabet) :
    ((gs.map (fun g => '-' :: g)).flatten).filter (fun c => c != '-') = gs.flatten := by
  induction gs with
  | nil => rfl
  | cons g gs ih =>
    have hg : g.filter (fun c => c != '-') = g := by
      rw [List.filter_eq_self]
      intro c hc
      have hne : c ≠ '-' := fun heq => hyphen_not_mem_alphabet (heq ▸ h g (by simp) c hc)
      simpa using hne
    have ih2 := ih (fun g2 hg2 => h g2 (List.mem_cons_of_mem _ hg2))
    simp only [List.map_cons, List.flatten_cons, List.cons_append, List.filter_cons,
      List.filter_append, hg, ih2]
    simp

theorem blockChars_of_shape {s : List Char} (h : IsShareCodeShape s) :
    ∃ gs : List (List Char), gs.length = 5 ∧
      (∀ g ∈ gs, g.length = 5 ∧ ∀ c ∈ g, c ∈ xcodeAlphabet) ∧ blockChars s = gs.flatten := by
  obtain ⟨gs, hlen, hall, rfl⟩ := h
  refine ⟨gs, hlen, hall, ?_⟩
  unfold blockChars
  rw [csgo_toList]
  simp only [List.cons_append, List.nil_append, List.drop_succ_cons, List.drop_zero]
  exact filter_hyphen_groups gs (fun g hg => (hall g hg).2)

theorem blockChars_length {s : List Char} (h : xcodePattern.test s = true) :
    (blockChars s).length = 25 := by
  obtain ⟨gs, hlen, hall, hb⟩ := blockChars_of_shape ((xcodePattern_test_iff s).1 h)
  have hsum : gs.map List.length = gs.map (fun _ => 5) :=
    List.map_congr_left (fun g hg => (hall g hg).1)
  rw [hb, List.length_flatten, hsum]
  simp [hlen]

theorem blockChars_mem_alphabet {s : List Char} (h : xcodePattern.test s = true) :
    ∀ c ∈ blockChars s, c ∈ xcodeAlphabet := by
  obtain ⟨gs, -, hall, hb⟩ := blockChars_of_shape ((xcodePattern_test_iff s).1 h)
  intro c hc
  rw [hb] at hc
  obtain ⟨g, hg, hcg⟩ := List.mem_flatten.1 hc
  exact (hall g hg).2 c hcg

/-! ## The computation of `crosshairCode` -/

theorem head?_of_mem_iff {l : List (List Char)} {c : Prop} [Decidable c]
    (h : ∀ r, r ∈ l ↔ c ∧ r = []) : l.head? = if c then some [] else none := by
  cases l with
  | nil =>
    have hc : ¬ c := fun hc => by simpa using (h []).2 ⟨hc, rfl⟩
    simp [hc]
  | cons r rs =>
    obtain ⟨hc, hr⟩ := (h r).1 (by simp)
    simp [hc, hr]

theorem matchFrom_pngSuffix (s : List Char) :
    pngSuffixPattern.matchFrom s = if s = ".png".toList then some [] else none := by
  unfold Pattern.matchFrom
  apply head?_of_mem_iff
  intro r
  have hbody : pngSuffixPattern.body = litThen ".png".toList Regex.eol := rfl
  have hci : pngSuffixPattern.ignoreCase = false := rfl
  rw [hbody, hci, mem_matchAt_litThen]
  constructor
  · rintro ⟨t, rfl, ht⟩
    cases t with
    | nil =>
      simp only [matchAt, List.isEmpty_nil, if_true, List.mem_singleton] at ht
      exact ⟨by simp, ht⟩
    | cons x xs => simp [matchAt] at ht
  · rintro ⟨rfl, rfl⟩
    exact ⟨[], by simp, by simp [matchAt]⟩

theorem png_toList : ".png".toList = ['.', 'p', 'n', 'g'] := rfl

theorem searchFrom_pngSuffix (s pre : List Char) :
    searchFrom pngSuffixPattern pre s =
      if ".png".toList <:+ s then some (pre ++ s.take (s.length - 4), []) else none := by
  induction s generalizing pre with
  | nil =>
    simp [searchFrom, matchFrom_pngSuffix, png_toList]
  | cons x xs ih =>
    rw [searchFrom, matchFrom_pngSuffix]
    by_cases hx : x :: xs = ".png".toList
    · rw [if_pos hx]
      have hsuf : ".png".toList <:+ x :: xs := hx ▸ List.suffix_refl _
      rw [if_pos hsuf, hx]
      simp [png_toList]
    · rw [if_neg hx]
      simp only [ih]
      have hiff : ".png".toList <:+ x :: xs ↔ ".png".toList <:+ xs := by
        rw [List.suffix_cons_iff]
        constructor
        · rintro (h | h)
          · exact absurd h.symm hx
          · exact h
        · exact Or.inr
      by_cases hsuf : ".png".toList <:+ xs
      · rw [if_pos hsuf, if_pos (hiff.2 hsuf)]
        have hlen : 4 ≤ xs.length := by
          have := hsuf.length_le
          simpa [png_toList] using this
        have hsub : (x :: xs).length - 4 = (xs.length - 4) + 1 := by
          simp only [List.length_cons]
          omega
        rw [hsub, List.take_succ_cons]
        simp
      · rw [if_neg hsuf, if_neg (fun h => hsuf (hiff.1 h))]

theorem replaceFirst_pngSuffix (s : List Char) :
    replaceFirst pngSuffixPattern [] s = stripPngSuffix s := by
  unfold replaceFirst Pattern.exec stripPngSuffix
  have hanch : pngSuffixPattern.anchored = false := rfl
  simp only [hanch, Bool.false_eq_true, if_false, searchFrom_pngSuffix]
  by_cases hsuf : ".png".toList <:+ s
  · rw [if_pos hsuf, if_pos hsuf]
    simp
  · rw [if_neg hsuf, if_neg hsuf]

theorem splitChar_ne_nil (sep : Char) (s : List Char) : splitChar sep s ≠ [] := by
  cases s with
  | nil => simp [splitChar]
  | cons x xs =>
    unfold splitChar
    split_ifs
    · simp
    · split <;> simp

theorem splitChar_headD (sep : Char) (s : List Char) :
    (splitChar sep s).headD [] = s.takeWhile (fun c => c != sep) := by
  induction s with
  | nil => simp [splitChar]
  | cons x xs ih =>
    unfold splitChar
    by_cases hx : x = sep
    · simp [hx]
    · rw [if_neg hx]
      have hne : (x != sep) = true := by simpa using hx
      rw [List.takeWhile_cons, hne, if_pos rfl, ← ih]
      cases hsp : splitChar sep xs with
      | nil => exact absurd hsp (splitChar_ne_nil sep xs)
      | cons piece pieces => simp

theorem matchFrom_unsafeChar (x : Char) (xs : List Char) :
    unsafeCharPattern.matchFrom (x :: xs) = if x ∈ unsafeChars then some xs else none := by
  have hbody : unsafeCharPattern.body = Regex.cls unsafeChars := rfl
  have hci : unsafeCharPattern.ignoreCase = false := rfl
  unfold Pattern.matchFrom
  rw [hbody, hci]
  simp only [matchAt, canon_false, map_canon_false, List.elem_eq_mem, decide_eq_true_eq]
  by_cases hx : x ∈ unsafeChars
  · simp [hx]
  · simp [hx]

theorem replaceAll_unsafeChar (s : List Char) :
    replaceAll unsafeCharPattern [] s = s.filter (fun c => !unsafeChars.contains c) := by
  unfold replaceAll
  induction s with
  | nil =>
    have h0 : unsafeCharPattern.matchFrom [] = none := rfl
    simp [replaceAllAux, h0]
  | cons x xs ih =>
    rw [replaceAllAux, matchFrom_unsafeChar]
    by_cases hx : x ∈ unsafeChars
    · simp only [hx, if_true]
      have hk : (x :: xs).length - xs.length = 1 := by simp
      simp [hk, ih, hx]
    · simp [hx, ih]

theorem crosshairCodeOf_eq_plain (filename : List Char) :
    crosshairCodeOf filename = plainCrosshairCode filename := by
  unfold crosshairCodeOf plainCrosshairCode
  simp only [replaceFirst_pngSuffix, splitChar_headD, replaceAll_unsafeChar]

/-! ## The cache file -/

theorem splitChar_of_not_mem (sep : Char) (s : List Char) (h : sep ∉ s) :
    splitChar sep s = [s] := by
  induction s with
  | nil => rfl
  | cons x xs ih =>
    have hx : x ≠ sep := fun heq => h (heq ▸ List.mem_cons_self _ _)
    have hxs : sep ∉ xs := fun hmem => h (List.mem_cons_of_mem _ hmem)
    simp [splitChar, hx, ih hxs]

/-- For a code without `/`, `path.join('./cache', code + '.png')` is
`cache/` followed by the code and `.png`. -/
theorem cacheFileOf_eq (code : List Char) (h : '/' ∉ code) :
    cacheFileOf code = "cache/".toList ++ code ++ ".png".toList := by
  have hname : '/' ∉ code ++ ['.', 'p', 'n', 'g'] := by
    simp only [List.mem_append, not_or]
    exact ⟨h, by decide⟩
  have hlen : 4 ≤ (code ++ ['.', 'p', 'n', 'g']).length := by simp
  have h0 : code ++ ['.', 'p', 'n', 'g'] ≠ [] := by
    intro heq
    rw [heq] at hlen
    simp at hlen
  have h1 : code ++ ['.', 'p', 'n', 'g'] ≠ ['.'] := by
    intro heq
    rw [heq] at hlen
    simp at hlen
  have h2 : code ++ ['.', 'p', 'n', 'g'] ≠ ['.', '.'] := by
    intro heq
    rw [heq] at hlen
    simp at hlen
  have hlast : (code ++ ['.', 'p', 'n', 'g']).getLast? = some 'g' := by
    rw [List.getLast?_append]
    simp
  have hlast2 : ('/' :: (code ++ ['.', 'p', 'n', 'g'])).getLast? = some 'g' := by
    cases hc : code ++ ['.', 'p', 'n', 'g'] with
    | nil => exact absurd hc h0
    | cons x xs =>
      rw [← hc, ← hlast]
      simp [List.getLast?, hc]
  have hsplit := splitChar_of_not_mem '/' _ hname
  have hcache : "cache/".toList = ['c', 'a', 'c', 'h', 'e', '/'] := rfl
  have hdir : cacheDirectory = ['.', '/', 'c', 'a', 'c', 'h', 'e'] := rfl
  unfold cacheFileOf pathJoin pathNormalize
  rw [png_toList, hcache, hdir]
  simp [splitChar, hsplit, normalizeSegments, h0, h1, h2, hlast, hlast2, List.intercalate]

theorem alphabet_isAlphanum : ∀ c ∈ xcodeAlphabet, c.isAlphanum = true := by decide

/-- The characters of a string of share-code shape are ASCII letters, digits
or hyphens. -/
theorem shape_chars {s : List Char} (h : IsShareCodeShape s) :
    ∀ c ∈ s, c.isAlphanum = true ∨ c = '-' := by
  obtain ⟨gs, -, hall, rfl⟩ := h
  intro c hc
  rw [csgo_toList] at hc
  simp only [List.mem_append, List.mem_cons, List.mem_flatten, List.mem_map,
    List.not_mem_nil, or_false] at hc
  rcases hc with (rfl | rfl | rfl | rfl) | ⟨l, ⟨g, hg, rfl⟩, hcl⟩
  · exact Or.inl (by decide)
  · exact Or.inl (by decide)
  · exact Or.inl (by decide)
  · exact Or.inl (by decide)
  · rcases List.mem_cons.1 hcl with rfl | hcg
    · exact Or.inr rfl
    · exact Or.inl (alphabet_isAlphanum c ((hall g hg).2 c hcg))

theorem accepted_no_special {s : List Char} (h : xcodePattern.test s = true) :
    '/' ∉ s ∧ Char.ofNat 92 ∉ s ∧ '.' ∉ s := by
  have hchars := shape_chars ((xcodePattern_test_iff s).1 h)
  refine ⟨?_, ?_, ?_⟩ <;> intro hmem <;> rcases hchars _ hmem with hc | hc <;>
    revert hc <;> decide

/-! ## The file system -/

theorem mkdirSync_some {fs fs1 : FileSys} {path : List Char}
    (h : fs.mkdirSync path = some fs1) : fs1.cwd = fs.cwd ∧ fs1.files = fs.files := by
  unfold FileSys.mkdirSync at h
  split_ifs at h
  · cases h
    exact ⟨rfl, rfl⟩
  · cases h
    exact ⟨rfl, rfl⟩

theorem writeFileSync_some {fs fs2 : FileSys} {path : List Char} {data : List Nat}
    (h : fs.writeFileSync path data = some fs2) :
    fs2.cwd = fs.cwd ∧ fs2.files = (pathResolve fs.cwd path, data) :: fs.files := by
  unfold FileSys.writeFileSync at h
  split_ifs at h
  cases h
  exact ⟨rfl, rfl⟩

theorem readFile_of_files_eq {fs fs1 : FileSys} (h : fs1.files = fs.files) (p : List Char) :
    fs1.readFile p = fs.readFile p := by
  simp [FileSys.readFile, h]

theorem readFile_written {fs fs2 : FileSys} {path : List Char} {data : List Nat}
    (h : fs.writeFileSync path data = some fs2) :
    fs2.readFile (pathResolve fs.cwd path) = some data := by
  simp [FileSys.readFile, (writeFileSync_some h).2, List.lookup]

theorem readFile_none_of_not_exists {fs : FileSys} {path : List Char}
    (h : fs.existsSync path = false) : fs.readFile (pathResolve fs.cwd path) = none := by
  unfold FileSys.existsSync at h
  rw [Bool.or_eq_false_iff] at h
  cases hr : fs.readFile (pathResolve fs.cwd path) with
  | none => rfl
  | some data =>
    rw [hr] at h
    simp at h

/-! ## The `try` block of the image route -/

theorem renderImage_effects {σ κ : Type} (R : Renderer σ κ) (code : List Char) (e : Effect)
    (he : e ∈ (renderImage R code).2) :
    e = Effect.newRenderer ∨ e = Effect.parseCode code ∨ e = Effect.renderCrosshair ∨
      e = Effect.toBuffer := by
  unfold renderImage at he
  split at he
  · simp only [List.mem_singleton] at he
    exact Or.inl he
  · split at he
    · simp only [List.mem_cons, List.mem_singleton, List.not_mem_nil, or_false] at he
      tauto
    · split at he
      · simp only [List.mem_cons, List.mem_singleton, List.not_mem_nil, or_false] at he
        tauto
      · split at he
        · simp only [List.mem_cons, List.mem_singleton, List.not_mem_nil, or_false] at he
          tauto
        · simp only [List.mem_cons, List.mem_singleton, List.not_mem_nil, or_false] at he
          tauto

theorem renderImage_ok {σ κ : Type} (R : Renderer σ κ) (code : List Char) (settings : σ)
    (canvas : κ) (imageBuffer : List Nat) (hnew : R.construct = true)
    (hparse : R.parseCode code = some settings)
    (hrender : R.renderCrosshair settings canvasSize = some canvas)
    (hbuf : R.toBuffer canvas = some imageBuffer) :
    (renderImage R code).1 = some imageBuffer := by
  simp [renderImage, hnew, hparse, hrender, hbuf]

theorem renderImage_fails {σ κ : Type} (R : Renderer σ κ) (code : List Char)
    (h : R.construct = false ∨ R.parseCode code = none ∨
      ∃ settings, R.parseCode code = some settings ∧
        (R.renderCrosshair settings canvasSize = none ∨
          ∃ canvas, R.renderCrosshair settings canvasSize = some canvas ∧
            R.toBuffer canvas = none)) :
    (renderImage R code).1 = none := by
  unfold renderImage
  rcases h with hnew | hparse | ⟨settings, hparse, hrender | ⟨canvas, hrender, hbuf⟩⟩
  · simp [hnew]
  · by_cases hnew : R.construct = true
    · simp [hnew, hparse]
    · simp [hnew]
  · by_cases hnew : R.construct = true
    · simp [hnew, hparse, hrender]
    · simp [hnew]
  · by_cases hnew : R.construct = true
    · simp [hnew, hparse, hrender, hbuf]
    · simp [hnew]

theorem writeCache_effects (fs : FileSys) (cacheFile : List Char) (imageBuffer : List Nat)
    (e : Effect) (he : e ∈ (writeCache fs cacheFile imageBuffer).2.2) :
    e = Effect.existsSync cacheDirectory ∨ e = Effect.mkdirSync cacheDirectory ∨
      e = Effect.writeFileSync cacheFile imageBuffer := by
  unfold writeCache at he
  split at he
  · split at he
    · simp only [List.mem_cons, List.mem_singleton, List.not_mem_nil, or_false] at he
      tauto
    · split at he
      · simp only [List.mem_cons, List.mem_singleton, List.not_mem_nil, or_false] at he
        tauto
      · simp only [List.mem_cons, List.mem_singleton, List.not_mem_nil, or_false] at he
        tauto
  · split at he
    · simp only [List.mem_cons, List.mem_singleton, List.not_mem_nil, or_false] at he
      tauto
    · simp only [List.mem_cons, List.mem_singleton, List.not_mem_nil, or_false] at he
      tauto

/-- After a cache write that went through, the cache file holds the buffer. -/
theorem writeCache_done (fs : FileSys) (cacheFile : List Char) (imageBuffer : List Nat)
    (h : (writeCache fs cacheFile imageBuffer).1 = true) :
    (writeCache fs cacheFile imageBuffer).2.1.cwd = fs.cwd ∧
    (writeCache fs cacheFile imageBuffer).2.1.readFile (pathResolve fs.cwd cacheFile) =
      some imageBuffer := by
  cases hdir : fs.existsSync cacheDirectory with
  | false =>
    cases hmk : fs.mkdirSync cacheDirectory with
    | none => simp [writeCache, hdir, hmk] at h
    | some fs1 =>
      cases hw : fs1.writeFileSync cacheFile imageBuffer with
      | none => simp [writeCache, hdir, hmk, hw] at h
      | some fs2 =>
        have hcwd := (mkdirSync_some hmk).1
        have hread := readFile_written hw
        rw [hcwd] at hread
        simp only [writeCache, hdir, hmk, hw, Bool.not_false, if_true]
        exact ⟨(writeFileSync_some hw).1.trans hcwd, hread⟩
  | true =>
    cases hw : fs.writeFileSync cacheFile imageBuffer with
    | none => simp [writeCache, hdir, hw] at h
    | some fs2 =>
      simp only [writeCache, hdir, hw, Bool.not_true, Bool.false_eq_true, if_false]
      exact ⟨(writeFileSync_some hw).1, readFile_written hw⟩

/-- After a cache write that failed, the regular files are as before. -/
theorem writeCache_failed (fs : FileSys) (cacheFile : List Char) (imageBuffer : List Nat)
    (h : (writeCache fs cacheFile imageBuffer).1 = false) :
    (writeCache fs cacheFile imageBuffer).2.1.cwd = fs.cwd ∧
    (writeCache fs cacheFile imageBuffer).2.1.files = fs.files := by
  cases hdir : fs.existsSync cacheDirectory with
  | false =>
    cases hmk : fs.mkdirSync cacheDirectory with
    | none =>
      simp [writeCache, hdir, hmk]
    | some fs1 =>
      cases hw : fs1.writeFileSync cacheFile imageBuffer with
      | none =>
        simp only [writeCache, hdir, hmk, hw, Bool.not_false, if_true]
        exact mkdirSync_some hmk
      | some fs2 => simp [writeCache, hdir, hmk, hw] at h
  | true =>
    cases hw : fs.writeFileSync cacheFile imageBuffer with
    | none =>
      simp [writeCache, hdir, hw]
    | some fs2 => simp [writeCache, hdir, hw] at h

/-! ## The image handler, case by case -/

theorem imageHandler_reject {σ κ : Type} (X : SendLib) (R : Renderer σ κ) (fs : FileSys)
    (h : SendHeaders) (filename : List Char)
    (ht : xcodePattern.test (crosshairCodeOf filename) = false) :
    imageHandler X R fs h filename = (Outcome.sent invalidCodeResponse, fs, []) := by
  simp [imageHandler, ht]

theorem imageHandler_hit {σ κ : Type} (X : SendLib) (R : Renderer σ κ) (fs : FileSys)
    (h : SendHeaders) (filename : List Char)
    (ht : xcodePattern.test (crosshairCodeOf filename) = true)
    (hhit : fs.existsSync (cacheFileOf (crosshairCodeOf filename)) = true) :
    imageHandler X R fs h filename =
      (expressSendFile X fs h pngHeaders
          (pathResolve fs.cwd (cacheFileOf (crosshairCodeOf filename))), fs,
        [Effect.existsSync (cacheFileOf (crosshairCodeOf filename)),
          Effect.sendFile (pathResolve fs.cwd (cacheFileOf (crosshairCodeOf filename)))]) := by
  simp [imageHandler, ht, hhit]

theorem imageHandler_render_fails {σ κ : Type} (X : SendLib) (R : Renderer σ κ) (fs : FileSys)
    (h : SendHeaders) (filename : List Char)
    (ht : xcodePattern.test (crosshairCodeOf filename) = true)
    (hmiss : fs.existsSync (cacheFileOf (crosshairCodeOf filename)) = false)
    (hrender : (renderImage R (crosshairCodeOf filename)).1 = none) :
    imageHandler X R fs h filename =
      (Outcome.sent renderFailedResponse, fs,
        Effect.existsSync (cacheFileOf (crosshairCodeOf filename)) ::
          (renderImage R (crosshairCodeOf filename)).2) := by
  simp [imageHandler, ht, hmiss, hrender]

theorem imageHandler_write_fails {σ κ : Type} (X : SendLib) (R : Renderer σ κ) (fs : FileSys)
    (h : SendHeaders) (filename : List Char) (imageBuffer : List Nat)
    (ht : xcodePattern.test (crosshairCodeOf filename) = true)
    (hmiss : fs.existsSync (cacheFileOf (crosshairCodeOf filename)) = false)
    (hrender : (renderImage R (crosshairCodeOf filename)).1 = some imageBuffer)
    (hwrite : (writeCache fs (cacheFileOf (crosshairCodeOf filename)) imageBuffer).1 = false) :
    imageHandler X R fs h filename =
      (Outcome.sent renderFailedResponse,
        (writeCache fs (cacheFileOf (crosshairCodeOf filename)) imageBuffer).2.1,
        Effect.existsSync (cacheFileOf (crosshairCodeOf filename)) ::
          (renderImage R (crosshairCodeOf filename)).2 ++
          (writeCache fs (cacheFileOf (crosshairCodeOf filename)) imageBuffer).2.2) := by
  simp [imageHandler, ht, hmiss, hrender, hwrite]

theorem imageHandler_written {σ κ : Type} (X : SendLib) (R : Renderer σ κ) (fs : FileSys)
    (h : SendHeaders) (filename : List Char) (imageBuffer : List Nat)
    (ht : xcodePattern.test (crosshairCodeOf filename) = true)
    (hmiss : fs.existsSync (cacheFileOf (crosshairCodeOf filename)) = false)
    (hrender : (renderImage R (crosshairCodeOf filename)).1 = some imageBuffer)
    (hwrite : (writeCache fs (cacheFileOf (crosshairCodeOf filename)) imageBuffer).1 = true) :
    imageHandler X R fs h filename =
      (expressSend X h pngHeaders imageBuffer,
        (writeCache fs (cacheFileOf (crosshairCodeOf filename)) imageBuffer).2.1,
        Effect.existsSync (cacheFileOf (crosshairCodeOf filename)) ::
          (renderImage R (crosshairCodeOf filename)).2 ++
          (writeCache fs (cacheFileOf (crosshairCodeOf filename)) imageBuffer).2.2) := by
  simp [imageHandler, ht, hmiss, hrender, hwrite]

theorem expressSend_status (X : SendLib) (h : SendHeaders) (headers : List (String × String))
    (buffer : List Nat) :
    (expressSend X h headers buffer).status = some 200 ∨
      (expressSend X h headers buffer).status = some 304 := by
  unfold expressSend
  split_ifs
  · exact Or.inr rfl
  · exact Or.inl rfl

theorem expressSend_plain (X : SendLib) (h : SendHeaders) (headers : List (String × String))
    (buffer : List Nat) (hplain : h.isPlain = true) :
    expressSend X h headers buffer = Outcome.sent ⟨200, headers, Body.bytes buffer⟩ := by
  unfold SendHeaders.isPlain at hplain
  simp only [Bool.and_eq_true, Option.isNone_iff_eq_none] at hplain
  simp [expressSend, hplain.1.1.1.2, hplain.1.1.2]

theorem expressSendFile_status_ne_400 (X : SendLib) (fs : FileSys) (h : SendHeaders)
    (headers : List (String × String)) (absPath : List Char) :
    (expressSendFile X fs h headers absPath).status ≠ some 400 := by
  unfold expressSendFile
  split
  · simp [Outcome.status]
  · split_ifs
    · simp [Outcome.status]
    · split <;> simp [Outcome.status, errorHandlerResponse]

/-- Every effect of the image handler happens after a successful pattern
test and is one of nine calls, all determined by `crosshairCode`. -/
theorem imageHandler_effect_forms {σ κ : Type} (X : SendLib) (R : Renderer σ κ) (fs : FileSys)
    (h : SendHeaders) (filename : List Char) (e : Effect)
    (he : e ∈ (imageHandler X R fs h filename).2.2) :
    xcodePattern.test (crosshairCodeOf filename) = true ∧
    (e = Effect.existsSync (cacheFileOf (crosshairCodeOf filename)) ∨
      e = Effect.sendFile (pathResolve fs.cwd (cacheFileOf (crosshairCodeOf filename))) ∨
      e = Effect.newRenderer ∨
      e = Effect.parseCode (crosshairCodeOf filename) ∨
      e = Effect.renderCrosshair ∨
      e = Effect.toBuffer ∨
      e = Effect.existsSync cacheDirectory ∨
      e = Effect.mkdirSync cacheDirectory ∨
      ∃ data, e = Effect.writeFileSync (cacheFileOf (crosshairCodeOf filename)) data) := by
  cases ht : xcodePattern.test (crosshairCodeOf filename) with
  | false =>
    rw [imageHandler_reject X R fs h filename ht] at he
    simp at he
  | true =>
    refine ⟨rfl, ?_⟩
    have hrender : e ∈ (renderImage R (crosshairCodeOf filename)).2 →
        e = Effect.existsSync (cacheFileOf (crosshairCodeOf filename)) ∨
        e = Effect.sendFile (pathResolve fs.cwd (cacheFileOf (crosshairCodeOf filename))) ∨
        e = Effect.newRenderer ∨
        e = Effect.parseCode (crosshairCodeOf filename) ∨
        e = Effect.renderCrosshair ∨
        e = Effect.toBuffer ∨
        e = Effect.existsSync cacheDirectory ∨
        e = Effect.mkdirSync cacheDirectory ∨
        ∃ data, e = Effect.writeFileSync (cacheFileOf (crosshairCodeOf filename)) data := by
      intro hmem
      rcases renderImage_effects R _ e hmem with rfl | rfl | rfl | rfl <;> simp
    have hwrite : ∀ imageBuffer,
        e ∈ (writeCache fs (cacheFileOf (crosshairCodeOf filename)) imageBuffer).2.2 →
        e = Effect.existsSync (cacheFileOf (crosshairCodeOf filename)) ∨
        e = Effect.sendFile (pathResolve fs.cwd (cacheFileOf (crosshairCodeOf filename))) ∨
        e = Effect.newRenderer ∨
        e = Effect.parseCode (crosshairCodeOf filename) ∨
        e = Effect.renderCrosshair ∨
        e = Effect.toBuffer ∨
        e = Effect.existsSync cacheDirectory ∨
        e = Effect.mkdirSync cacheDirectory ∨
        ∃ data, e = Effect.writeFileSync (cacheFileOf (crosshairCodeOf filename)) data := by
      intro imageBuffer hmem
      rcases writeCache_effects fs _ imageBuffer e hmem with rfl | rfl | rfl <;> simp
    cases hhit : fs.existsSync (cacheFileOf (crosshairCodeOf filename)) with
    | true =>
      rw [imageHandler_hit X R fs h filename ht hhit] at he
      simp only [List.mem_cons, List.mem_singleton, List.not_mem_nil, or_false] at he
      rcases he with rfl | rfl <;> simp
    | false =>
      cases hr : (renderImage R (crosshairCodeOf filename)).1 with
      | none =>
        rw [imageHandler_render_fails X R fs h filename ht hhit hr] at he
        rcases List.mem_cons.1 he with he | he
        · exact Or.inl he
        · exact hrender he
      | some imageBuffer =>
        cases hw : (writeCache fs (cacheFileOf (crosshairCodeOf filename)) imageBuffer).1 with
        | false =>
          rw [imageHandler_write_fails X R fs h filename imageBuffer ht hhit hr hw] at he
          rcases List.mem_append.1 he with he | he
          · rcases List.mem_cons.1 he with he | he
            · exact Or.inl he
            · exact hrender he
          · exact hwrite imageBuffer he
        | true =>
          rw [imageHandler_written X R fs h filename imageBuffer ht hhit hr hw] at he
          rcases List.mem_append.1 he with he | he
          · rcases List.mem_cons.1 he with he | he
            · exact Or.inl he
            · exact hrender he
          · exact hwrite imageBuffer he

/-- The status of the response of the image handler is 400 only on a failed
pattern test. -/
theorem imageHandler_status_400_iff {σ κ : Type} (X : SendLib) (R : Renderer σ κ)
    (fs : FileSys) (h : SendHeaders) (filename : List Char) :
    (imageHandler X R fs h filename).1.status = some 400 ↔
      xcodePattern.test (crosshairCodeOf filename) = false := by
  constructor
  · intro hst
    by_contra hne
    have ht : xcodePattern.test (crosshairCodeOf filename) = true := by simpa using hne
    cases hhit : fs.existsSync (cacheFileOf (crosshairCodeOf filename)) with
    | true =>
      rw [imageHandler_hit X R fs h filename ht hhit] at hst
      exact expressSendFile_status_ne_400 X fs h pngHeaders _ hst
    | false =>
      cases hr : (renderImage R (crosshairCodeOf filename)).1 with
      | none =>
        rw [imageHandler_render_fails X R fs h filename ht hhit hr] at hst
        simp [Outcome.status, renderFailedResponse] at hst
      | some imageBuffer =>
        cases hw : (writeCache fs (cacheFileOf (crosshairCodeOf filename)) imageBuffer).1 with
        | false =>
          rw [imageHandler_write_fails X R fs h filename imageBuffer ht hhit hr hw] at hst
          simp [Outcome.status, renderFailedResponse] at hst
        | true =>
          rw [imageHandler_written X R fs h filename imageBuffer ht hhit hr hw] at hst
          rcases expressSend_status X h pngHeaders imageBuffer with h2 | h2 <;>
            rw [h2] at hst <;> simp at hst
  · intro ht
    rw [imageHandler_reject X R fs h filename ht]
    rfl

/-! ## Claims about the share-code pattern -/

/-- C1. Share-code shape check: `config.patterns.xcodePattern` accepts a string
exactly when it is `CSGO` followed by five groups of one hyphen and five
alphabet characters, with nothing before or after; every accepted string has
length 34; the match is case-sensitive (the example code with a lower-case
`csgo` is refused); and the example code of the usage response is accepted. -/
theorem xcodePattern_accepts_exactly_the_shape :
    (∀ s : List Char, xcodePattern.test s = true ↔ IsShareCodeShape s) ∧
    (∀ s : List Char, xcodePattern.test s = true → s.length = 34) ∧
    xcodePattern.test "csgo-AJswe-2jNcK-nMpEQ-rHV5J-5JWAB".toList = false ∧
    xcodePattern.test "CSGO-AJswe-2jNcK-nMpEQ-rHV5J-5JWAB".toList = true :=
  ⟨xcodePattern_test_iff,
    fun s h => ((xcodePattern_test_iff s).1 h).length_eq,
    by decide, by decide⟩

/-- C4, as the code has it: the character class of
`config.patterns.xcodePattern` has exactly 57 distinct symbols, each symbol
has a position in 0..56, and an accepted code is a string of 25 digits in
base 57. -/
theorem xcodeAlphabet_has_57_symbols :
    xcodeAlphabet.Nodup ∧ xcodeAlphabet.length = 57 ∧
    (∀ c ∈ xcodeAlphabet, xcodeAlphabet.indexOf c < 57) ∧
    (∀ s : List Char, xcodePattern.test s = true →
      (codeDigits s).length = 25 ∧ ∀ d ∈ codeDigits s, d < 57) := by
  have hlen : xcodeAlphabet.length = 57 := by decide
  refine ⟨by decide, hlen, ?_, ?_⟩
  · intro c hc
    rw [← hlen]
    exact List.indexOf_lt_length.2 hc
  · intro s hs
    refine ⟨by simp [codeDigits, blockChars_length hs], ?_⟩
    intro d hd
    obtain ⟨c, hc, rfl⟩ := List.mem_map.1 hd
    rw [← hlen]
    exact List.indexOf_lt_length.2 (blockChars_mem_alphabet hs c hc)

/-- C4, counterexample: the number of distinct symbols of the character class
is not 25. -/
theorem xcodeAlphabet_not_25_symbols : ¬ (xcodeAlphabet.dedup.length = 25) := by
  decide

/-- C5, as the code has it: none of `0`, `1`, `I` is in the alphabet, so no
block character of an accepted code is `0`, `1` or `I`. -/
theorem accepted_code_has_no_zero_one_I (s : List Char) (h : xcodePattern.test s = true) :
    ∀ c ∈ blockChars s, c ≠ '0' ∧ c ≠ '1' ∧ c ≠ 'I' := by
  intro c hc
  have hmem := blockChars_mem_alphabet h c hc
  refine ⟨?_, ?_, ?_⟩ <;> rintro rfl <;> revert hmem <;> decide

/-- C5, witness: the example code. -/
theorem accepted_code_has_no_zero_one_I_witness :
    xcodePattern.test exampleCode = true ∧
    ∀ c ∈ blockChars exampleCode, c ≠ '0' ∧ c ≠ '1' ∧ c ≠ 'I' :=
  ⟨by decide, accepted_code_has_no_zero_one_I exampleCode (by decide)⟩

/-- C5, counterexample: an accepted code whose block characters include `O`
and `S`. -/
theorem accepted_code_with_O_and_S :
    xcodePattern.test "CSGO-OOOOO-SSSSS-OOOOO-SSSSS-OOOOO".toList = true ∧
    'O' ∈ blockChars "CSGO-OOOOO-SSSSS-OOOOO-SSSSS-OOOOO".toList ∧
    'S' ∈ blockChars "CSGO-OOOOO-SSSSS-OOOOO-SSSSS-OOOOO".toList := by
  decide

/-! ## Claims about the image route -/

/-- C2. Pre-filter before decoding: when `crosshairCode` does not match
`config.patterns.xcodePattern` the handler answers with status 400 and does
nothing else; every step it does take (cache lookup, `parseCode`,
`renderCrosshair`, cache write) comes after a successful match, and the
string handed to `parseCode` and naming the cache file is that matching
`crosshairCode`. -/
theorem image_route_prefilter {σ κ : Type} (X : SendLib) (R : Renderer σ κ) (fs : FileSys)
    (h : SendHeaders) (filename : List Char) :
    (xcodePattern.test (crosshairCodeOf filename) = false →
      imageHandler X R fs h filename = (Outcome.sent invalidCodeResponse, fs, []) ∧
      (imageHandler X R fs h filename).1.status = some 400) ∧
    (∀ e ∈ (imageHandler X R fs h filename).2.2,
      xcodePattern.test (crosshairCodeOf filename) = true ∧
      (∀ c, e = Effect.parseCode c → c = crosshairCodeOf filename) ∧
      (∀ p, e = Effect.sendFile p →
        p = pathResolve fs.cwd (cacheFileOf (crosshairCodeOf filename))) ∧
      (∀ p data, e = Effect.writeFileSync p data →
        p = cacheFileOf (crosshairCodeOf filename))) := by
  constructor
  · intro ht
    rw [imageHandler_reject X R fs h filename ht]
    exact ⟨rfl, rfl⟩
  · intro e he
    obtain ⟨ht, hform⟩ := imageHandler_effect_forms X R fs h filename e he
    refine ⟨ht, ?_, ?_, ?_⟩
    · rintro c rfl
      rcases hform with hf | hf | hf | hf | hf | hf | hf | hf | ⟨d, hf⟩ <;> cases hf
      rfl
    · rintro p rfl
      rcases hform with hf | hf | hf | hf | hf | hf | hf | hf | ⟨d, hf⟩ <;> cases hf
      rfl
    · rintro p data rfl
      rcases hform with hf | hf | hf | hf | hf | hf | hf | hf | ⟨d, hf⟩ <;> cases hf
      rfl

/-- C2, witness: a name that does not match is answered with 400 and no step
is taken. -/
theorem image_route_prefilter_witness :
    imageHandler sampleSendLib sampleRenderer emptyFileSys plainHeaders
        "not-a-real-code".toList =
      (Outcome.sent invalidCodeResponse, emptyFileSys, []) ∧
    (imageHandler sampleSendLib sampleRenderer emptyFileSys plainHeaders
      "not-a-real-code".toList).1.status = some 400 :=
  (image_route_prefilter sampleSendLib sampleRenderer emptyFileSys plainHeaders
    "not-a-real-code".toList).1 (by decide)

/-- C3, as the code has it: the request is rejected with status 400, and
nothing is handed to `parseCode`, exactly when the sanitised name does not
match the pattern; the sanitised name is the filename with one trailing
`.png` removed, cut at the first `/`, with every `\ : * ? " < > |` deleted.
The name `not-a-real-code` is rejected. -/
theorem image_route_rejects_iff_sanitised_name_mismatches {σ κ : Type} (X : SendLib)
    (R : Renderer σ κ) (fs : FileSys) (h : SendHeaders) (filename : List Char) :
    crosshairCodeOf filename = plainCrosshairCode filename ∧
    ((imageHandler X R fs h filename).1.status = some 400 ↔
      xcodePattern.test (plainCrosshairCode filename) = false) ∧
    (xcodePattern.test (plainCrosshairCode filename) = false →
      ∀ c, Effect.parseCode c ∉ (imageHandler X R fs h filename).2.2) ∧
    (imageHandler X R fs h "not-a-real-code".toList).1.status = some 400 := by
  have hplain := crosshairCodeOf_eq_plain filename
  refine ⟨hplain, ?_, ?_, ?_⟩
  · rw [← hplain]
    exact imageHandler_status_400_iff X R fs h filename
  · intro ht c hc
    rw [← hplain] at ht
    rw [imageHandler_reject X R fs h filename ht] at hc
    simp at hc
  · have ht : xcodePattern.test (crosshairCodeOf "not-a-real-code".toList) = false := by decide
    rw [imageHandler_reject X R fs h _ ht]
    rfl

/-- C3, counterexample: a filename that, with or without a trailing `.png`, has
not the share-code shape and contains `*`, a character outside the alphabet,
is not rejected: the answer is the image with status 200 and the name, with
`*` deleted, is handed to `parseCode`. -/
theorem image_route_accepts_name_with_star :
    xcodePattern.test (stripPngSuffix "CSGO-AJswe-2jNcK-nMpEQ-rHV5J-5JWA*B".toList) = false ∧
    '*' ∈ "CSGO-AJswe-2jNcK-nMpEQ-rHV5J-5JWA*B".toList ∧ '*' ∉ xcodeAlphabet ∧
    (imageHandler sampleSendLib sampleRenderer emptyFileSys plainHeaders
      "CSGO-AJswe-2jNcK-nMpEQ-rHV5J-5JWA*B".toList).1.status = some 200 ∧
    Effect.parseCode exampleCode ∈
      (imageHandler sampleSendLib sampleRenderer emptyFileSys plainHeaders
        "CSGO-AJswe-2jNcK-nMpEQ-rHV5J-5JWA*B".toList).2.2 := by
  decide

/-- C7, as the code has it: for a `GET` request without `Range` and
conditional headers whose code is accepted by the shape check and has no
cache file, with parsing, rendering and encoding succeeding: if the cache
write goes through, the response is the image with the PNG headers, the
cache file afterwards holds exactly the bytes sent, and a following such
request for the same code on the file system so left gets the same status,
headers and body, leaves the file system as it is and makes no call into the
renderer; if the cache write fails, the response is the 500 of the `catch`
branch and there is still no cache file.  If constructing the renderer,
parsing, rendering or encoding fails, the response has status 500 and the
file system is unchanged, so there is still no cache file. -/
theorem image_cache_coherent {σ κ : Type} (X X2 : SendLib) (R R2 : Renderer σ κ)
    (fs : FileSys) (h h2 : SendHeaders) (filename : List Char)
    (hshape : xcodePattern.test (crosshairCodeOf filename) = true)
    (hmiss : fs.existsSync (cacheFileOf (crosshairCodeOf filename)) = false)
    (hplain : h.isPlain = true) (hplain2 : h2.isPlain = true) :
    (∀ settings canvas imageBuffer,
      R.construct = true →
      R.parseCode (crosshairCodeOf filename) = some settings →
      R.renderCrosshair settings canvasSize = some canvas →
      R.toBuffer canvas = some imageBuffer →
      ((writeCache fs (cacheFileOf (crosshairCodeOf filename)) imageBuffer).1 = true →
        (imageHandler X R fs h filename).1 =
          Outcome.sent ⟨200, pngHeaders, Body.bytes imageBuffer⟩ ∧
        (imageHandler X R fs h filename).2.1.readFile
          (pathResolve fs.cwd (cacheFileOf (crosshairCodeOf filename))) = some imageBuffer ∧
        ∀ filename2, crosshairCodeOf filename2 = crosshairCodeOf filename →
          (imageHandler X2 R2 (imageHandler X R fs h filename).2.1 h2 filename2).1 =
            (imageHandler X R fs h filename).1 ∧
          (imageHandler X2 R2 (imageHandler X R fs h filename).2.1 h2 filename2).2.1 =
            (imageHandler X R fs h filename).2.1 ∧
          ∀ e ∈ (imageHandler X2 R2 (imageHandler X R fs h filename).2.1 h2 filename2).2.2,
            e.isRenderer = false) ∧
      ((writeCache fs (cacheFileOf (crosshairCodeOf filename)) imageBuffer).1 = false →
        (imageHandler X R fs h filename).1 = Outcome.sent renderFailedResponse ∧
        (imageHandler X R fs h filename).1.status = some 500 ∧
        (imageHandler X R fs h filename).2.1.readFile
          (pathResolve fs.cwd (cacheFileOf (crosshairCodeOf filename))) = none)) ∧
    ((R.construct = false ∨ R.parseCode (crosshairCodeOf filename) = none ∨
      ∃ settings, R.parseCode (crosshairCodeOf filename) = some settings ∧
        (R.renderCrosshair settings canvasSize = none ∨
          ∃ canvas, R.renderCrosshair settings canvasSize = some canvas ∧
            R.toBuffer canvas = none)) →
      (imageHandler X R fs h filename).1.status = some 500 ∧
      (imageHandler X R fs h filename).2.1 = fs ∧
      (imageHandler X R fs h filename).2.1.existsSync
        (cacheFileOf (crosshairCodeOf filename)) = false) := by
  constructor
  · intro settings canvas imageBuffer hnew hparse hrender hbuf
    have hr := renderImage_ok R _ settings canvas imageBuffer hnew hparse hrender hbuf
    constructor
    · intro hw
      have hrun := imageHandler_written X R fs h filename imageBuffer hshape hmiss hr hw
      obtain ⟨hcwd, hread⟩ := writeCache_done fs _ imageBuffer hw
      rw [hrun, expressSend_plain X h pngHeaders imageBuffer hplain]
      refine ⟨rfl, hread, ?_⟩
      intro filename2 hsame
      have hshape2 : xcodePattern.test (crosshairCodeOf filename2) = true := hsame ▸ hshape
      have hexists : (writeCache fs (cacheFileOf (crosshairCodeOf filename))
          imageBuffer).2.1.existsSync (cacheFileOf (crosshairCodeOf filename2)) = true := by
        rw [hsame]
        unfold FileSys.existsSync
        rw [hcwd, hread]
        rfl
      have hhit := imageHandler_hit X2 R2 _ h2 filename2 hshape2 hexists
      rw [hsame, hcwd] at hhit
      dsimp only
      rw [hhit]
      refine ⟨?_, rfl, ?_⟩
      · simp only [expressSendFile, hread, hplain2, if_true]
      · intro e he
        simp only [List.mem_cons, List.mem_singleton, List.not_mem_nil, or_false] at he
        rcases he with rfl | rfl <;> rfl
    · intro hw
      have hrun := imageHandler_write_fails X R fs h filename imageBuffer hshape hmiss hr hw
      obtain ⟨-, hfiles⟩ := writeCache_failed fs _ imageBuffer hw
      rw [hrun]
      refine ⟨rfl, rfl, ?_⟩
      dsimp only
      rw [readFile_of_files_eq hfiles]
      exact readFile_none_of_not_exists hmiss
  · intro hfail
    rw [imageHandler_render_fails X R fs h filename hshape hmiss (renderImage_fails R _ hfail)]
    exact ⟨rfl, rfl, hmiss⟩

/-- C7, witness: the example code on an empty file system, first rendered and
written, then served from the cache; and the same request with a renderer
that throws. -/
theorem image_cache_coherent_witness :
    (imageHandler sampleSendLib sampleRenderer emptyFileSys plainHeaders exampleCode).1 =
      Outcome.sent ⟨200, pngHeaders, Body.bytes [137, 80, 78, 71]⟩ ∧
    (imageHandler sampleSendLib sampleRenderer
      (imageHandler sampleSendLib sampleRenderer emptyFileSys plainHeaders exampleCode).2.1
      plainHeaders exampleCode).1 =
        (imageHandler sampleSendLib sampleRenderer emptyFileSys plainHeaders exampleCode).1 ∧
    (imageHandler sampleSendLib failingRenderer emptyFileSys plainHeaders
      exampleCode).1.status = some 500 ∧
    (imageHandler sampleSendLib failingRenderer emptyFileSys plainHeaders exampleCode).2.1 =
      emptyFileSys :=
  have hok := ((image_cache_coherent sampleSendLib sampleSendLib sampleRenderer sampleRenderer
    emptyFileSys plainHeaders plainHeaders exampleCode (by decide) (by decide) rfl rfl).1
    exampleCode canvasSize [137, 80, 78, 71] rfl rfl rfl rfl).1 (by decide)
  have hfail := (image_cache_coherent sampleSendLib sampleSendLib failingRenderer
    failingRenderer emptyFileSys plainHeaders plainHeaders exampleCode (by decide) (by decide)
    rfl rfl).2 (Or.inr (Or.inl rfl))
  ⟨hok.1, (hok.2.2 exampleCode rfl).1, hfail.1, hfail.2.1⟩

/-- C7, counterexample: with `/app/cache` a regular file, the request for the
example code finds no cache file and parsing, rendering and encoding succeed,
yet `writeFileSync` throws: the response is the 500 of the `catch` branch and
no cache file holds the image.  And after a successful first request, a
following request with `Range: bytes=0-0` is answered from the cache with
status 206 and one byte, not with the body of the first response. -/
theorem image_render_ok_but_cache_write_fails :
    xcodePattern.test (crosshairCodeOf exampleCode) = true ∧
    blockedCacheFileSys.existsSync (cacheFileOf (crosshairCodeOf exampleCode)) = false ∧
    (renderImage sampleRenderer (crosshairCodeOf exampleCode)).1 = some [137, 80, 78, 71] ∧
    (imageHandler sampleSendLib sampleRenderer blockedCacheFileSys plainHeaders
      exampleCode).1 = Outcome.sent renderFailedResponse ∧
    (imageHandler sampleSendLib sampleRenderer blockedCacheFileSys plainHeaders
      exampleCode).2.1.readFile
        (pathResolve blockedCacheFileSys.cwd (cacheFileOf (crosshairCodeOf exampleCode))) =
      none ∧
    (imageHandler sampleSendLib sampleRenderer emptyFileSys plainHeaders exampleCode).1 =
      Outcome.sent ⟨200, pngHeaders, Body.bytes [137, 80, 78, 71]⟩ ∧
    (imageHandler sampleSendLib sampleRenderer
      (imageHandler sampleSendLib sampleRenderer emptyFileSys plainHeaders exampleCode).2.1
      firstByteHeaders exampleCode).1 =
        Outcome.sent ⟨206, pngHeaders, Body.bytes [137]⟩ := by
  decide

/-- C10, as the code has it: every file-system call of the image handler names
either the cache directory itself (the existence check and the `mkdir` before
the write) or the cache file of the code, `cache/` + code + `.png` (for
`sendFile`, that path made absolute by `path.resolve`); the code has exactly
34 characters, all ASCII letters, digits or hyphens, none of them `/`, `\`
or `.`; and two different accepted codes never name the same cache file. -/
theorem image_route_fs_calls_confined :
    (∀ (σ κ : Type) (X : SendLib) (R : Renderer σ κ) (fs : FileSys) (h : SendHeaders)
      (filename : List Char) (e : Effect),
      e ∈ (imageHandler X R fs h filename).2.2 → ∀ path : List Char, e.fsPath = some path →
      (crosshairCodeOf filename).length = 34 ∧
      (∀ c ∈ crosshairCodeOf filename, c.isAlphanum = true ∨ c = '-') ∧
      ('/' ∉ crosshairCodeOf filename ∧ Char.ofNat 92 ∉ crosshairCodeOf filename ∧
        '.' ∉ crosshairCodeOf filename) ∧
      cacheFileOf (crosshairCodeOf filename) =
        "cache/".toList ++ crosshairCodeOf filename ++ ".png".toList ∧
      (e = Effect.existsSync (cacheFileOf (crosshairCodeOf filename)) ∨
        e = Effect.sendFile (pathResolve fs.cwd (cacheFileOf (crosshairCodeOf filename))) ∨
        (∃ data, e = Effect.writeFileSync (cacheFileOf (crosshairCodeOf filename)) data) ∨
        e = Effect.existsSync cacheDirectory ∨
        e = Effect.mkdirSync cacheDirectory)) ∧
    (∀ code1 code2 : List Char, xcodePattern.test code1 = true →
      xcodePattern.test code2 = true → cacheFileOf code1 = cacheFileOf code2 →
      code1 = code2) := by
  constructor
  · intro σ κ X R fs h filename e he path hpath
    obtain ⟨ht, hform⟩ := imageHandler_effect_forms X R fs h filename e he
    have hshape := (xcodePattern_test_iff _).1 ht
    have hspecial := accepted_no_special ht
    refine ⟨hshape.length_eq, shape_chars hshape, hspecial, cacheFileOf_eq _ hspecial.1, ?_⟩
    rcases hform with hf | hf | hf | hf | hf | hf | hf | hf | ⟨d, hf⟩
    · exact Or.inl hf
    · exact Or.inr (Or.inl hf)
    · rw [hf] at hpath
      simp [Effect.fsPath] at hpath
    · rw [hf] at hpath
      simp [Effect.fsPath] at hpath
    · rw [hf] at hpath
      simp [Effect.fsPath] at hpath
    · rw [hf] at hpath
      simp [Effect.fsPath] at hpath
    · exact Or.inr (Or.inr (Or.inr (Or.inl hf)))
    · exact Or.inr (Or.inr (Or.inr (Or.inr hf)))
    · exact Or.inr (Or.inr (Or.inl ⟨d, hf⟩))
  · intro code1 code2 h1 h2 heq
    rw [cacheFileOf_eq _ (accepted_no_special h1).1,
      cacheFileOf_eq _ (accepted_no_special h2).1, List.append_assoc, List.append_assoc] at heq
    exact List.append_cancel_right (List.append_cancel_left heq)

/-- C10, witness: the cache lookup of the example code. -/
theorem image_route_fs_calls_confined_witness :
    Effect.existsSync "cache/CSGO-AJswe-2jNcK-nMpEQ-rHV5J-5JWAB.png".toList ∈
      (imageHandler sampleSendLib sampleRenderer emptyFileSys plainHeaders exampleCode).2.2 ∧
    cacheFileOf (crosshairCodeOf exampleCode) =
      "cache/".toList ++ crosshairCodeOf exampleCode ++ ".png".toList :=
  ⟨by decide,
    (image_route_fs_calls_confined.1 _ _ sampleSendLib sampleRenderer emptyFileSys plainHeaders
      exampleCode
      (Effect.existsSync "cache/CSGO-AJswe-2jNcK-nMpEQ-rHV5J-5JWAB.png".toList) (by decide)
      "cache/CSGO-AJswe-2jNcK-nMpEQ-rHV5J-5JWAB.png".toList rfl).2.2.2.1⟩

/-- C10, counterexample: on a cache miss the handler also calls `existsSync`
on the cache directory itself, a path that is not the directory joined with
code + `.png` for any 34-character code of letters, digits and hyphens. -/
theorem image_route_touches_cache_directory :
    Effect.existsSync cacheDirectory ∈
      (imageHandler sampleSendLib sampleRenderer emptyFileSys plainHeaders exampleCode).2.2 ∧
    ¬ ∃ code : List Char, code.length = 34 ∧ (∀ c ∈ code, c.isAlphanum = true ∨ c = '-') ∧
      cacheDirectory = pathJoin cacheDirectory (code ++ ".png".toList) := by
  refine ⟨by decide, ?_⟩
  rintro ⟨code, hlen, hchars, heq⟩
  have hslash : '/' ∉ code := by
    intro hmem
    rcases hchars _ hmem with hc | hc <;> revert hc <;> decide
  have hfile := cacheFileOf_eq code hslash
  unfold cacheFileOf at hfile
  rw [hfile] at heq
  have hl := congrArg List.length heq
  simp [cacheDirectory, hlen] at hl

/-! ## Routing and host validation -/

theorem searchFrom_isSome_of_match (p : Pattern) (b : List Char)
    (hb : (p.matchFrom b).isSome = true) (a pre : List Char) :
    (searchFrom p pre (a ++ b)).isSome = true := by
  induction a generalizing pre with
  | nil =>
    cases b with
    | nil => simpa [searchFrom] using hb
    | cons x xs =>
      obtain ⟨r, hr⟩ := Option.isSome_iff_exists.1 hb
      simp [searchFrom, hr]
  | cons x a ih =>
    rw [List.cons_append, searchFrom]
    cases hm : p.matchFrom (x :: (a ++ b)) with
    | some r => rfl
    | none => exact ih (pre ++ [x])

theorem staticExtPattern_test_png (a : List Char) :
    staticExtPattern.test (a ++ ".png".toList) = true := by
  unfold Pattern.test Pattern.exec
  have hanch : staticExtPattern.anchored = false := rfl
  rw [hanch]
  exact searchFrom_isSome_of_match staticExtPattern ".png".toList (by decide) a []

theorem allowedHosts_eq :
    allowedHosts =
      [jsToLowerCase configDomain, jsToLowerCase configHost,
        jsToLowerCase configDomain ++ ":80".toList, jsToLowerCase configDomain ++ ":443".toList,
        jsToLowerCase configHost ++ ":80".toList, jsToLowerCase configHost ++ ":443".toList] :=
  rfl

theorem hostMiddleware_eq_none_iff (req : Request) :
    hostMiddleware req = none ↔
      (getReqHost req = [] ∨ ".up.railway.app".toList <:+ getReqHost req ∨
        getReqHost req ∈ allowedHosts) := by
  unfold hostMiddleware
  generalize ".up.railway.app".toList = railway
  by_cases h1 : getReqHost req = []
  · simp [h1]
  · by_cases h2 : railway <:+ getReqHost req
    · simp [h1, h2]
    · by_cases h3 : getReqHost req ∈ allowedHosts
      · simp [h1, h2, h3]
      · simp [h1, h2, h3]

theorem hostMiddleware_cases (req : Request) :
    hostMiddleware req = none ∨ hostMiddleware req = some accessDeniedResponse := by
  unfold hostMiddleware
  simp only []
  split_ifs <;> simp

/-! ## Claims about routing and host validation -/

/-- C8, as the code has it: the host is the `X-Forwarded-Host` header if it is
present and not empty, otherwise the `Host` header (the empty string when
that is absent too), cut at the first comma, trimmed and lower-cased.  The
middleware passes the request on exactly when the host is empty, or ends
with `.up.railway.app`, or is the lower-cased `config.domain` or
`config.host` optionally followed by `:80` or `:443`; in every other case
the response has status 403 and nothing registered later runs. -/
theorem host_middleware_passes_iff (req : Request) :
    (∀ v, req.xForwardedHost = some v → v ≠ [] → getReqHost req = normalizeHostValue v) ∧
    ((req.xForwardedHost = none ∨ req.xForwardedHost = some []) →
      getReqHost req = normalizeHostValue (req.host.getD [])) ∧
    (hostMiddleware req = none ↔
      (getReqHost req = [] ∨ ".up.railway.app".toList <:+ getReqHost req ∨
        ∃ base ∈ [jsToLowerCase configDomain, jsToLowerCase configHost],
          ∃ port ∈ [[], ":80".toList, ":443".toList], getReqHost req = base ++ port)) ∧
    (hostMiddleware req = none →
      ∀ later fs, runApp later fs req = later req fs) ∧
    (hostMiddleware req ≠ none →
      ∀ later fs, runApp later fs req = (accessDeniedResponse, fs, []) ∧
        (runApp later fs req).1.status = 403) := by
  refine ⟨?_, ?_, ?_, ?_, ?_⟩
  · intro v hv hne
    cases v with
    | nil => exact absurd rfl hne
    | cons x xs => simp [getReqHost, hv, jsOr]
  · rintro (hx | hx)
    · cases hh : req.host with
      | none => simp [getReqHost, hx, hh, jsOr]
      | some w =>
        cases w with
        | nil => simp [getReqHost, hx, hh, jsOr]
        | cons y ys => simp [getReqHost, hx, hh, jsOr]
    · cases hh : req.host with
      | none => simp [getReqHost, hx, hh, jsOr]
      | some w =>
        cases w with
        | nil => simp [getReqHost, hx, hh, jsOr]
        | cons y ys => simp [getReqHost, hx, hh, jsOr]
  · rw [hostMiddleware_eq_none_iff, allowedHosts_eq]
    simp only [List.mem_cons, List.mem_singleton, List.not_mem_nil, or_false, exists_eq_or_imp,
      exists_eq_left, List.append_nil]
    tauto
  · intro h later fs
    simp [runApp, h]
  · intro h later fs
    rcases hostMiddleware_cases req with h0 | h1
    · exact absurd h0 h
    · simp [runApp, h1, accessDeniedResponse]

/-- C8, witness: the configured domain with port 443 and upper-case letters is
passed on; a foreign host is answered with 403 whatever is registered
later. -/
theorem host_middleware_passes_iff_witness :
    hostMiddleware ownDomainRequest = none ∧
    (∀ later fs, runApp later fs foreignHostRequest = (accessDeniedResponse, fs, []) ∧
      (runApp later fs foreignHostRequest).1.status = 403) :=
  ⟨by decide, (host_middleware_passes_iff foreignHostRequest).2.2.2.2 (by decide)⟩

/-- C8, counterexample: with an `X-Forwarded-Host` header that is present but
empty, the host as the claim words it is empty, yet the middleware falls back
to the foreign `Host` header and answers with 403. -/
theorem host_middleware_empty_forwarded_host :
    hostIfPresent emptyForwardedHostRequest = [] ∧
    hostMiddleware emptyForwardedHostRequest = some accessDeniedResponse ∧
    accessDeniedResponse.status = 403 := by
  decide

/-- C9, what the code does: a `GET` for `/image/` + c + `.png` is answered by
the static-extension route, registered before the image route, with status
204 and no body; the image handler is not run and no file is touched,
whatever c is.  Without the `.png` the same code reaches the image route. -/
theorem static_route_answers_png_image_path {σ κ : Type} (X : SendLib) (R : Renderer σ κ)
    (decode : List Char → Option (List Char))
    (later : FileSys → List Char → Outcome × FileSys × List Effect)
    (fs : FileSys) (h : SendHeaders) (c : List Char) :
    dispatch ("/image/".toList ++ c ++ ".png".toList) = Route.staticExtension ∧
    handleGet X R decode later fs h ("/image/".toList ++ c ++ ".png".toList) =
      (Outcome.sent ⟨204, [], Body.empty⟩, fs, []) ∧
    dispatch ("/image/".toList ++ exampleCode) = Route.image exampleCode := by
  have hd : dispatch ("/image/".toList ++ c ++ ".png".toList) = Route.staticExtension := by
    unfold dispatch
    rw [if_pos (staticExtPattern_test_png _)]
  refine ⟨hd, ?_, by decide⟩
  unfold handleGet
  rw [hd]

end Crosshair
